import Mathlib

/-!
Shallow embedding of the `lovrle_rust` traffic microsimulator core
(`src/road.rs`, `src/bike.rs`, `src/car.rs`) and verification of the
frozen claims about it.

Modelling conventions:
* `isize` is modelled as `Int`; `usize` as `Nat`.  The only place where
  machine-integer edge behaviour matters for the claims is
  `isize::saturating_sub_unsigned`, which is modelled exactly
  (saturation at `-2^63`).
* `f32` values (`const_width`, `alpha`) are modelled as `ℚ`; the car
  width formula `ceil(const_width + alpha * speed)` is exact rational
  arithmetic.  Rust's `as usize` cast of a float saturates at `0` for
  negative values, which is mirrored by `Int.toNat` after a `max` with 0.
* Rust panics (`unwrap`, `expect`, division by zero in `rem_euclid`)
  and `anyhow` errors are both modelled as `Except.error`: either way
  the call does not return successfully.
* The `HashMap<Coord, Vehicle>` occupancy index is modelled as the
  function `Coord → Option Vehicle`.
* Sources of randomness (`thread_rng` Bernoulli draws, the per-tick
  shuffle, `IteratorRandom::choose`) are passed in explicitly as an
  `Oracle`; validity constraints (`shuffle` permutes, `choose` picks a
  member) are hypotheses of the theorems.
-/

namespace Lovrle

/-- `Coord` from road.rs: a (lat, long) cell coordinate. -/
structure Coord where
  lat : Int
  long : Int
deriving DecidableEq, Repr

/-- `Vehicle` from road.rs: tagged id of a bike or a car. -/
inductive Vehicle where
  | bike (id : Nat)
  | car (id : Nat)
deriving DecidableEq, Repr

/-- `RectangleOccupier` from road.rs. -/
structure RectangleOccupier where
  front : Int
  right : Int
  width : Nat
  length : Nat
deriving DecidableEq, Repr

/-- The smallest `isize` value (64-bit). -/
def isizeMin : Int := -(2 ^ 63)

/-- Rust `isize::saturating_sub_unsigned`. -/
def saturating_sub_unsigned (x : Int) (y : Nat) : Int :=
  max (x - (y : Int)) isizeMin

/-- Rust inclusive range `a..=b` collected left to right. -/
def intRangeIcc (a b : Int) : List Int :=
  (List.range (b + 1 - a).toNat).map (fun i : Nat => a + (i : Int))

/-- `rectangle_occupation` from road.rs: the cells covered by a
rectangle with the given front, right, width and length, enumerated
lat-major exactly like the Rust iterator chain. -/
def rectangle_occupation (front right : Int) (width length : Nat) :
    List Coord :=
  (intRangeIcc (saturating_sub_unsigned right width + 1) right).flatMap
    (fun lat =>
      (intRangeIcc (saturating_sub_unsigned front length + 1) front).map
        (fun long => ⟨lat, long⟩))

namespace RectangleOccupier

/-- `RectangleOccupier::occupied_cells` (impl RoadOccupier). -/
def occupied_cells (r : RectangleOccupier) : List Coord :=
  rectangle_occupation r.front r.right r.width r.length

/-- `RectangleOccupier::left`. -/
def left (r : RectangleOccupier) : Int :=
  saturating_sub_unsigned r.right r.width + 1

/-- `RectangleOccupier::back`. -/
def back (r : RectangleOccupier) : Int :=
  saturating_sub_unsigned r.front r.length + 1

/-- `RectangleOccupier::back_left`. -/
def back_left (r : RectangleOccupier) : Coord :=
  ⟨r.left, r.back⟩

/-- `RectangleOccupier::width_iterator`. -/
def width_iterator (r : RectangleOccupier) : List Int :=
  intRangeIcc r.left r.right

/-- `RectangleOccupier::front_cells`: the front-edge cells. -/
def front_cells (r : RectangleOccupier) : List Coord :=
  r.width_iterator.map (fun lat => ⟨lat, r.front⟩)

end RectangleOccupier

/-- `RoadOccupier::occupier_is_within`: some occupied cell has lat < width. -/
def occupier_is_within (cells : List Coord) (width : Int) : Bool :=
  cells.any (fun c => c.lat < width)

/-- `RoadOccupier::occupier_is_entirely_without`. -/
def occupier_is_entirely_without (cells : List Coord) (width : Int) : Bool :=
  cells.all (fun c => width ≤ c.lat)

/-- Rust exclusive range `a..b` collected left to right. -/
def intRangeIco (a b : Int) : List Int :=
  (List.range (b - a).toNat).map (fun i : Nat => a + (i : Int))

/-- The const generic parameters `L`, `BLW`, `MLW` of `Road`/`RoadCells`. -/
structure Dims where
  L : Nat
  BLW : Nat
  MLW : Nat
deriving DecidableEq, Repr

/-- `RoadCells::total_width`. -/
def Dims.total_width (P : Dims) : Nat := P.BLW + P.MLW

/-- The occupancy index `HashMap<Coord, Vehicle>`, as a partial map. -/
def Cells : Type := Coord → Option Vehicle

instance instDecEqExcept {e a : Type} [DecidableEq e] [DecidableEq a] :
    DecidableEq (Except e a) := fun x y =>
  match x, y with
  | .ok u, .ok w =>
      if h : u = w then isTrue (by rw [h]) else isFalse (by simp [h])
  | .error u, .error w =>
      if h : u = w then isTrue (by rw [h]) else isFalse (by simp [h])
  | .ok _, .error _ => isFalse (by simp)
  | .error _, .ok _ => isFalse (by simp)

/-- Structural `Except`-monad traversal of a list, the meaning of the
fallible Rust iterator pipelines below (stops at the first error). -/
def mapExcept {α β : Type} (f : α → Except String β) :
    List α → Except String (List β)
  | [] => pure []
  | x :: xs => do pure ((← f x) :: (← mapExcept f xs))

/-- Structural `Except`-monad fold (the serial acceptance loop). -/
def foldExcept {σ α : Type} (f : σ → α → Except String σ) :
    σ → List α → Except String σ
  | st, [] => pure st
  | st, x :: xs => do foldExcept f (← f st x) xs

/-- `RoadCells::validate_coord`.  A lat outside `[0, W)` is an error;
`long` is reduced with `rem_euclid(L)`, which in Rust panics when
`L = 0` (a panic is modelled as an error). -/
def validate_coord (P : Dims) (c : Coord) : Except String Coord :=
  if c.lat < 0 then .error "lat value was less than 0"
  else if c.lat < (P.total_width : Int) then
    if P.L = 0 then .error "rem_euclid division by zero"
    else .ok ⟨c.lat, c.long.emod (P.L : Int)⟩
  else .error "lat value exceeded total road width"

/-- The scan inside `RoadCells::first_car_back`: walk the listed
backward offsets; an occupied cell holding a car stops the scan with
that car's id, a bike or an empty cell lets the scan continue. -/
def first_car_back_scan (P : Dims) (cells : Cells) (lat long : Int) :
    List Int → Except String (Option Nat)
  | [] => pure none
  | d :: ds => do
      let vc ← validate_coord P ⟨lat, long - d⟩
      match cells vc with
      | some (Vehicle.car id) => pure (some id)
      | _ => first_car_back_scan P cells lat long ds

/-- `RoadCells::first_car_back`: search strictly behind the coordinate
in the same lat column, offsets `1..max_search` (exclusive upper). -/
def first_car_back (P : Dims) (cells : Cells) (c : Coord)
    (maybe_max : Option Nat) : Except String (Option Nat) :=
  let max_search : Int := match maybe_max with
    | some set_max => (set_max : Int)
    | none => (P.L : Int)
  first_car_back_scan P cells c.lat c.long
    ((List.range (max_search - 1).toNat).map (fun i : Nat => 1 + (i : Int)))

/-- `RoadCells::front_gap`: validate the start coordinate, scan offsets
`1..max_search` ahead in the same column, and count the empty cells
before the first occupied one, or return `max_search` if none is found.
The lookups go through `get`, whose lat check always passes here (the
lat is the validated start lat), so they are written as direct wrapped
lookups. -/
def cells_front_gap (P : Dims) (cells : Cells) (c : Coord)
    (maybe_max : Option Nat) : Except String Nat := do
  let vc ← validate_coord P c
  let max_search := maybe_max.getD P.L
  let ds := (List.range (max_search - 1)).map (fun i : Nat => (1 : Int) + (i : Int))
  match ds.find? (fun d =>
      (cells ⟨vc.lat, (vc.long + d).emod (P.L : Int)⟩).isSome) with
  | some d =>
      let found_long := vc.long + d
      let ahead := found_long - (vc.long + 1)
      pure (if ahead < 0 then ahead + (P.L : Int) else ahead).toNat
  | none => pure max_search

/-- `YStarSelectionStrategy` from bike.rs. -/
inductive YStarSelectionStrategy where
  | rightmost
  | uniformRandom
deriving DecidableEq, Repr

/-- `Bike` from bike.rs.  The two `Bernoulli` distributions are
represented by their parameters. -/
structure Bike where
  occupation : RectangleOccupier
  forward_speed_max : Int
  forward_speed : Int
  forward_acceleration : Int
  rightward_speed_max : Int
  lateral_ignorance : ℚ
  deceleration_prob : ℚ
  y_star_selection_strategy : YStarSelectionStrategy
deriving DecidableEq, Repr

/-- `Car` from car.rs.  `const_width` (= builder `car_width + beta`)
and `alpha` are `f32` in Rust, modelled as rationals. -/
structure Car where
  front : Int
  length : Nat
  const_width : ℚ
  speed : Int
  fast_acceleration : Int
  slow_acceleration : Int
  max_slow_speed : Int
  speed_max : Int
  alpha : ℚ
  deceleration_prob : ℚ
deriving DecidableEq, Repr

/-- Free function `lateral_occupancy` from car.rs:
`(const_width + alpha * speed).ceil() as usize` (the float-to-usize
cast saturates below at 0).  The rational ceiling is computed with
exact integer arithmetic so that it evaluates by kernel reduction;
`lateral_occupancy_eq_ceil` below proves it equal to
`(max ⌈const_width + alpha * speed⌉ 0).toNat`. -/
def lateral_occupancy (const_width : ℚ) (speed : Int) (alpha : ℚ) : Nat :=
  let num : Int :=
    const_width.num * (alpha.den : Int) +
      alpha.num * speed * (const_width.den : Int)
  let den : Int := (const_width.den : Int) * (alpha.den : Int)
  (max (-((-num).ediv den)) 0).toNat

/-- `Car::lateral_occupancy_at_speed`. -/
def Car.lateral_occupancy_at_speed (car : Car) (speed : Int) : Nat :=
  lateral_occupancy car.const_width speed car.alpha

/-- `Car::lateral_occupancy`. -/
def Car.lateral_occupancy (car : Car) : Nat :=
  car.lateral_occupancy_at_speed car.speed

/-- `impl RoadOccupier for Car`: width depends on the current speed,
the right edge is anchored at `width - 1`. -/
def Car.occupied_cells (car : Car) : List Coord :=
  let width := car.lateral_occupancy
  rectangle_occupation car.front ((width : Int) - 1) width car.length

/-- `Car::next_iteration_potential_speed`. -/
def Car.next_iteration_potential_speed (car : Car) : Int :=
  let acceleration :=
    if car.speed ≤ car.max_slow_speed then car.slow_acceleration
    else car.fast_acceleration
  min (car.speed + acceleration) car.speed_max

/-- `Bike::occupied_cells` (impl RoadOccupier). -/
def Bike.occupied_cells (b : Bike) : List Coord :=
  b.occupation.occupied_cells

/-- `Road` from road.rs: the agent arrays (array index = id) and the
occupancy index. -/
structure Road where
  bikes : List Bike
  cars : List Car
  cells : Cells

/-- `Road::road_contains_occupier`: all cells have lat in `[0, W)`. -/
def road_contains_occupier (P : Dims) (cells : List Coord) : Bool :=
  cells.all (fun c =>
    decide (0 ≤ c.lat) && decide (c.lat < (P.total_width : Int)))

/-- `Road::motor_lane_contains_occupier`: some cell has lat < MLW. -/
def motor_lane_contains_occupier (P : Dims) (cells : List Coord) : Bool :=
  occupier_is_within cells (P.MLW : Int)

/-- `Road::collisions_for`: validate each cell of the occupier and
collect the vehicles found there. -/
def collisions_for (P : Dims) (cells : Cells) (occ : List Coord) :
    Except String (List Vehicle) := do
  let vcs ← mapExcept (validate_coord P) occ
  pure (vcs.filterMap cells)

/-- `Road::is_collision_for`: some found vehicle differs from the
given one. -/
def is_collision_for (P : Dims) (cells : Cells) (occ : List Coord)
    (vehicle : Vehicle) : Except String Bool :=
  (collisions_for P cells occ).map (fun found =>
    found.any (fun fv => fv ≠ vehicle))

/-- `Road::get_car` (panics on a bad id). -/
def Road.get_car (road : Road) (car_id : Nat) : Except String Car :=
  match road.cars.get? car_id with
  | some car => pure car
  | none => .error "invalid car id"

/-- `Road::first_car_back`: resolve the found car id to the car. -/
def Road.first_car_back (P : Dims) (road : Road) (c : Coord)
    (maybe_max : Option Nat) : Except String (Option Car) := do
  match ← Lovrle.first_car_back P road.cells c maybe_max with
  | some car_id => pure (some (← road.get_car car_id))
  | none => pure none

/-- `Road::is_blocking`: a trailing car was found and its potential
next speed is less than `car.front - coord.long`. -/
def Road.is_blocking (P : Dims) (road : Road) (c : Coord)
    (maybe_max : Option Nat) : Except String Bool := do
  match ← road.first_car_back P c maybe_max with
  | some car =>
      pure (decide (car.next_iteration_potential_speed < car.front - c.long))
  | none => pure false

/-- `Road::front_gap`: minimum of the column front gaps over the
occupation's front-edge cells (`None` when the occupier has no width). -/
def Road.front_gap (P : Dims) (road : Road) (occupation : RectangleOccupier) :
    Except String (Option Nat) := do
  let gaps ← mapExcept (fun c => cells_front_gap P road.cells c none)
    occupation.front_cells
  pure gaps.min?

/-- `Road::mean_car_speed`: the speed sum divided by the const generic
`C` (the car count).  f64 division is modelled as rational division. -/
def Road.mean_car_speed (road : Road) : ℚ :=
  (((road.cars.map Car.speed).sum : Int) : ℚ) / ((road.cars.length : Nat) : ℚ)

/-- `Road::mean_bike_speed`: the bike speed sum, divided — exactly as
in the source — by the const generic `C` (the CAR count). -/
def Road.mean_bike_speed (road : Road) : ℚ :=
  (((road.bikes.map Bike.forward_speed).sum : Int) : ℚ) / ((road.cars.length : Nat) : ℚ)

/-- Monadic list filter in the `Except` monad (the Rust iterator
`filter` adapters below call fallible road queries). -/
def filterExcept {α : Type} (p : α → Except String Bool) :
    List α → Except String (List α)
  | [] => pure []
  | x :: xs => do
      let keep ← p x
      let rest ← filterExcept p xs
      pure (if keep then x :: rest else rest)

/-- `Bike::potential_lateral_positions`: the exclusive range
`(right - r_max)..(right + r_max + 1)`. -/
def Bike.potential_lateral_positions (b : Bike) : List Int :=
  intRangeIco (b.occupation.right - b.rightward_speed_max)
    (b.occupation.right + b.rightward_speed_max + 1)

/-- `Bike::y_j_t_plus_1`. -/
def Bike.y_j_t_plus_1 (b : Bike) : List Int :=
  b.potential_lateral_positions

/-- `Bike::y_prime_j_t_plus_1`: candidate occupations at each lateral
position, kept when they are on the road and collision-free against
the current index (the bike's own cells excepted). -/
def Bike.y_prime_j_t_plus_1 (P : Dims) (b : Bike) (road : Road)
    (self_id : Nat) : Except String (List RectangleOccupier) :=
  filterExcept
    (fun occupation =>
      (is_collision_for P road.cells occupation.occupied_cells
        (Vehicle.bike self_id)).map (fun coll => !coll))
    (((b.y_j_t_plus_1).map
        (fun position => { b.occupation with right := position })).filter
      (fun occupation => road_contains_occupier P occupation.occupied_cells))

/-- `YPrimePrimeFilter` from bike.rs. -/
inductive YPrimePrimeFilter where
  | motorLaneBlocking
  | motorLaneNonBlocking
  | bikeLane
deriving DecidableEq, Repr

/-- `determine_y_prime_prime_j_t_plus_1_filter` from bike.rs. -/
def determine_y_prime_prime_j_t_plus_1_filter (P : Dims) (road : Road)
    (current_occupation : RectangleOccupier) :
    Except String YPrimePrimeFilter := do
  if motor_lane_contains_occupier P current_occupation.occupied_cells then
    if ← road.is_blocking P current_occupation.back_left none then
      pure .motorLaneBlocking
    else pure .motorLaneNonBlocking
  else pure .bikeLane

/-- `y_prime_prime_motor_lane_blocking` from bike.rs: partition the
candidates by motor-lane overlap; prefer the bike-lane ones, otherwise
the single last (rightmost) motor-lane one (`expect` panics when both
partitions are empty). -/
def y_prime_prime_motor_lane_blocking (P : Dims)
    (y_prime : List RectangleOccupier) :
    Except String (List RectangleOccupier) :=
  let on_motor_lane := y_prime.filter
    (fun occupier => motor_lane_contains_occupier P occupier.occupied_cells)
  let on_bike_lane := y_prime.filter
    (fun occupier => !motor_lane_contains_occupier P occupier.occupied_cells)
  if on_bike_lane.isEmpty then
    match on_motor_lane.getLast? with
    | some occ => pure [occ]
    | none => .error "bike should be able to stay still"
  else pure on_bike_lane

/-- `avoid_blocking_ypp_filter` from bike.rs: candidates that reach
below the boundary lat must have an unblocked back-left cell. -/
def avoid_blocking_ypp_filter (P : Dims) (road : Road) (boundary : Int)
    (yp : List RectangleOccupier) : Except String (List RectangleOccupier) :=
  filterExcept
    (fun occupation =>
      if occupier_is_within occupation.occupied_cells boundary then
        (road.is_blocking P occupation.back_left none).map (fun x => !x)
      else pure true)
    yp

/-- Free function `y_prime_prime_j_t_plus_1` from bike.rs. -/
def y_prime_prime_j_t_plus_1 (P : Dims) (road : Road)
    (current_occupation : RectangleOccupier)
    (y_prime : List RectangleOccupier) :
    Except String (List RectangleOccupier) := do
  match ← determine_y_prime_prime_j_t_plus_1_filter P road current_occupation with
  | .motorLaneBlocking => y_prime_prime_motor_lane_blocking P y_prime
  | .motorLaneNonBlocking =>
      avoid_blocking_ypp_filter P road current_occupation.right y_prime
  | .bikeLane =>
      avoid_blocking_ypp_filter P road current_occupation.right y_prime

/-- `Bike::y_prime_prime_j_t_plus_1` (the method wrapper). -/
def Bike.y_prime_prime (P : Dims) (b : Bike) (road : Road) (self_id : Nat) :
    Except String (List RectangleOccupier) := do
  y_prime_prime_j_t_plus_1 P road b.occupation
    (← b.y_prime_j_t_plus_1 P road self_id)

/-- The accumulator step of `max_by_key` on `right` (Rust's
`max_by_key` keeps the last of several equal maxima). -/
def rightmost_step (acc : Option RectangleOccupier)
    (x : RectangleOccupier) : Option RectangleOccupier :=
  match acc with
  | none => some x
  | some a => if a.right ≤ x.right then some x else some a

/-- `rightmost_y_star_selector` from bike.rs: `max_by_key` on `right`. -/
def rightmost_y_star_selector (options : List RectangleOccupier) :
    Option RectangleOccupier :=
  options.foldl rightmost_step none

/-- `Bike::select_y_star`: apply the strategy selector directly to Y''
(`uniform_y_star_selector`'s random choice is the oracle `pick`),
falling back to the current occupation. -/
def Bike.select_y_star (P : Dims) (b : Bike) (road : Road) (self_id : Nat)
    (pick : List RectangleOccupier → Option RectangleOccupier) :
    Except String RectangleOccupier := do
  let y_prime_prime ← b.y_prime_prime P road self_id
  let chosen := match b.y_star_selection_strategy with
    | .rightmost => rightmost_y_star_selector y_prime_prime
    | .uniformRandom => pick y_prime_prime
  pure (chosen.getD b.occupation)

/-- `Bike::lateral_update`: with the ignore draw the bike keeps its
state, otherwise the occupation becomes the selected y-star. -/
def Bike.lateral_update (P : Dims) (b : Bike) (self_id : Nat) (road : Road)
    (ignore_draw : Bool)
    (pick : List RectangleOccupier → Option RectangleOccupier) :
    Except String Bike :=
  if ignore_draw then pure b
  else (b.select_y_star P road self_id pick).map
    (fun occ => { b with occupation := occ })

/-- `Bike::forward_update`: next speed is the minimum of
speed + acceleration, the speed cap and the road front gap; the decel
draw then lowers it by one (floored at 0); the front advances modulo L. -/
def Bike.forward_update (P : Dims) (b : Bike) (road : Road)
    (decel_draw : Bool) : Except String Bike := do
  let gap_opt ← road.front_gap P b.occupation
  let gap ← match gap_opt with
    | some g => pure ((g : Nat) : Int)
    | none => .error "bike should have width"
  let next_speed :=
    min (min (b.forward_speed + b.forward_acceleration) b.forward_speed_max) gap
  let next_speed := if decel_draw then max (next_speed - 1) 0 else next_speed
  if P.L = 0 then .error "rem_euclid division by zero"
  else pure { b with
    occupation :=
      { b.occupation with front := (b.occupation.front + next_speed).emod (P.L : Int) },
    forward_speed := next_speed }

/-- The hypothetical car used at each candidate speed inside
`Car::safe_speeds` / `Car::fastest_safe_speed`: front advanced by the
candidate speed and the speed (hence the effective width) set to it. -/
def Car.potential_at (car : Car) (speed : Int) : Car :=
  { car with front := car.front + speed, speed := speed }

/-- The `take_while … last … unwrap_or(0)` loop of
`Car::fastest_safe_speed`: walk the candidate speeds in ascending
order, remembering the last collision-free one, and stop at the first
collision. -/
def fastest_safe_speed_aux (P : Dims) (cells : Cells) (car : Car)
    (self_id : Nat) : List Int → Int → Except String Int
  | [], best => pure best
  | k :: ks, best => do
      let coll ← is_collision_for P cells (car.potential_at k).occupied_cells
        (Vehicle.car self_id)
      if coll then pure best
      else fastest_safe_speed_aux P cells car self_id ks k

/-- `Car::fastest_safe_speed`. -/
def Car.fastest_safe_speed (P : Dims) (car : Car) (road : Road)
    (self_id : Nat) : Except String Int :=
  fastest_safe_speed_aux P road.cells car self_id
    (intRangeIcc 1 car.next_iteration_potential_speed) 0

/-- `Car::update`: fastest safe speed, optional deceleration, advance
modulo L. -/
def Car.update (P : Dims) (car : Car) (road : Road) (self_id : Nat)
    (decel_draw : Bool) : Except String Car := do
  let s ← car.fastest_safe_speed P road self_id
  let next_speed := if decel_draw then max (s - 1) 0 else s
  if P.L = 0 then .error "rem_euclid division by zero"
  else pure { car with
    front := (car.front + next_speed).emod (P.L : Int),
    speed := next_speed }

/-- The sources of randomness a tick consumes: per-bike Bernoulli draws
(`p_ignore`, `p_decel`), per-car Bernoulli draws (`p_decel`), the
`IteratorRandom::choose` of the UniformRandom lateral strategy, and the
per-tick acceptance-order shuffle. -/
structure Oracle where
  bike_ignore_draw : Nat → Bool
  bike_decel_draw : Nat → Bool
  car_decel_draw : Nat → Bool
  pick : List RectangleOccupier → Option RectangleOccupier
  shuffle : List (Nat × Bike) → List (Nat × Bike)

/-- What the elimination rules of a tick assume about the random
source: the shuffle is a permutation and a pick is a member. -/
def Oracle.Valid (o : Oracle) : Prop :=
  (∀ l, (o.shuffle l).Perm l) ∧
  (∀ l x, o.pick l = some x → x ∈ l)

/-- Remove a list of coordinates from the index
(`HashMap::remove`, the lateral/forward wipe loops). -/
def erase_cells (cells : Cells) (cs : List Coord) : Cells :=
  cs.foldl (fun m c => fun x => if x = c then none else m x) cells

/-- Insert a vehicle at a list of coordinates, silently overwriting
(`RoadCells::insert` ignores the returned previous value). -/
def insert_cells (cells : Cells) (cs : List Coord) (v : Vehicle) : Cells :=
  cs.foldl (fun m c => fun x => if x = c then some v else m x) cells

/-- `Road::wipe_bikes_from_cells`: validate and remove every bike cell
(the debug assertion is debug-only and elided). -/
def Road.wipe_bikes_from_cells (P : Dims) (road : Road) :
    Except String Cells := do
  let vcs ← mapExcept (validate_coord P) (road.bikes.flatMap Bike.occupied_cells)
  pure (erase_cells road.cells vcs)

/-- `Road::wipe_cars_from_cells`. -/
def Road.wipe_cars_from_cells (P : Dims) (road : Road) :
    Except String Cells := do
  let vcs ← mapExcept (validate_coord P) (road.cars.flatMap Car.occupied_cells)
  pure (erase_cells road.cells vcs)

/-- The panicking index `self.bikes[bike_id]` of the acceptance loop
(out of range aborts, modelled as an error). -/
def get_bike_or_err (bikes : List Bike) (bike_id : Nat) :
    Except String Bike :=
  match bikes.get? bike_id with
  | some b => pure b
  | none => .error "should be a valid bike id"

/-- One step of the lateral acceptance loop in
`Road::bikes_lateral_update`: check the proposal against the current
index, fall back to the bike's stored state on a conflict, then insert
the chosen occupation and store it in the bike array. -/
def lateral_accept (P : Dims) :
    Cells × List Bike → Nat × Bike → Except String (Cells × List Bike)
  | (cells, bikes), (bike_id, new_bike) => do
      let colls ← collisions_for P cells new_bike.occupied_cells
      let bike_to_occupy ←
        if colls.isEmpty then pure new_bike
        else get_bike_or_err bikes bike_id
      let vcs ← mapExcept (validate_coord P) bike_to_occupy.occupied_cells
      if bike_id < bikes.length then
        pure (insert_cells cells vcs (Vehicle.bike bike_id),
          bikes.set bike_id bike_to_occupy)
      else .error "bike array index out of bounds"

/-- `Road::next_bikes_lateral`: every bike's lateral proposal, computed
against the same (pre-tick) road. -/
def Road.next_bikes_lateral (P : Dims) (o : Oracle) (road : Road) :
    Except String (List Bike) :=
  mapExcept (fun p =>
    p.2.lateral_update P p.1 road (o.bike_ignore_draw p.1) o.pick)
    road.bikes.enum

/-- `Road::bikes_lateral_update`: propose in parallel, shuffle the
(id, proposal) pairs, wipe all bike cells, then accept serially. -/
def Road.bikes_lateral_update (P : Dims) (o : Oracle) (road : Road) :
    Except String Road := do
  let next_bikes ← road.next_bikes_lateral P o
  let shuffled_new_bikes := o.shuffle next_bikes.enum
  let wiped ← road.wipe_bikes_from_cells P
  let result ← foldExcept (lateral_accept P) (wiped, road.bikes) shuffled_new_bikes
  pure { road with cells := result.1, bikes := result.2 }

/-- The `try_for_each` insertion loop of the forward and car phases:
validate each cell, fail on an occupied target, insert otherwise. -/
def insert_validated_checked (P : Dims) (mk : Nat → Vehicle) :
    Cells → List (Coord × Nat) → Except String Cells
  | cells, [] => pure cells
  | cells, (c, id) :: rest => do
      let vc ← validate_coord P c
      match cells vc with
      | some _ => .error "inserted vehicle collided with found vehicle"
      | none =>
          insert_validated_checked P mk
            (fun x => if x = vc then some (mk id) else cells x) rest

/-- `Road::next_bikes_forward`. -/
def Road.next_bikes_forward (P : Dims) (o : Oracle) (road : Road) :
    Except String (List Bike) :=
  mapExcept (fun p =>
    p.2.forward_update P road (o.bike_decel_draw p.1)) road.bikes.enum

/-- `Road::bikes_forward_update`: compute the advanced bikes, wipe the
old bike cells, insert the advanced cells failing on any collision. -/
def Road.bikes_forward_update (P : Dims) (o : Oracle) (road : Road) :
    Except String Road := do
  let next_bikes ← road.next_bikes_forward P o
  let wiped ← road.wipe_bikes_from_cells P
  let cells ← insert_validated_checked P Vehicle.bike wiped
    (next_bikes.enum.flatMap (fun p =>
      p.2.occupied_cells.map (fun c => (c, p.1))))
  pure { road with bikes := next_bikes, cells := cells }

/-- `Road::next_cars`. -/
def Road.next_cars (P : Dims) (o : Oracle) (road : Road) :
    Except String (List Car) :=
  mapExcept (fun p =>
    p.2.update P road p.1 (o.car_decel_draw p.1)) road.cars.enum

/-- `Road::cars_update`. -/
def Road.cars_update (P : Dims) (o : Oracle) (road : Road) :
    Except String Road := do
  let next_cars ← road.next_cars P o
  let wiped ← road.wipe_cars_from_cells P
  let cells ← insert_validated_checked P Vehicle.car wiped
    (next_cars.enum.flatMap (fun p =>
      p.2.occupied_cells.map (fun c => (c, p.1))))
  pure { road with cars := next_cars, cells := cells }

/-- `Road::update`: bike lateral phase, bike forward phase, car phase. -/
def Road.update (P : Dims) (o : Oracle) (road : Road) :
    Except String Road := do
  let r1 ← road.bikes_lateral_update P o
  let r2 ← r1.bikes_forward_update P o
  r2.cars_update P o

/-! ### Claim-side (specification) definitions

These follow the words of the specification, for comparison with the
source-derived definitions above. -/

/-- Rust `Option<usize>::cmp` (`None` is least), used by
`y_star_cmp_priority` on the two `front_gap` results. -/
def optionNatCmp : Option Nat → Option Nat → Ordering
  | none, none => .eq
  | none, some _ => .lt
  | some _, none => .gt
  | some a, some b => compare a b

/-- `Bike::y_star_cmp_priority` from bike.rs: front gap first, then the
motor-lane/left tie-breaks. -/
def y_star_cmp_priority (P : Dims) (road : Road)
    (lhs rhs : RectangleOccupier) : Except String Ordering := do
  let gl ← road.front_gap P lhs
  let gr ← road.front_gap P rhs
  match optionNatCmp gl gr with
  | .lt => pure .lt
  | .gt => pure .gt
  | .eq =>
      match motor_lane_contains_occupier P lhs.occupied_cells,
        motor_lane_contains_occupier P rhs.occupied_cells with
      | true, true => pure (compare lhs.left rhs.left)
      | true, false => pure .lt
      | false, true => pure .gt
      | false, false => pure .eq

/-- Monadic `any` in the `Except` monad. -/
def anyExcept {α : Type} (p : α → Except String Bool) :
    List α → Except String Bool
  | [] => pure false
  | x :: xs => do
      if ← p x then pure true else anyExcept p xs

/-- Claim-side selection rule of C2: take the maximal elements of the
priority preorder over Y''; if that set is empty keep the current
occupation, otherwise choose its element with the greatest `right`. -/
def spec_select_y_star (P : Dims) (b : Bike) (road : Road)
    (self_id : Nat) : Except String RectangleOccupier := do
  let y_prime_prime ← b.y_prime_prime P road self_id
  let maximal ← filterExcept
    (fun x =>
      (anyExcept
        (fun y => (y_star_cmp_priority P road x y).map
          (fun o => decide (o = .lt)))
        y_prime_prime).map (fun strictly_below => !strictly_below))
    y_prime_prime
  pure ((rightmost_y_star_selector maximal).getD b.occupation)

/-- Claim-side reading of C3: blocked when the trailing car's potential
next speed strictly EXCEEDS `car.front − c.long`. -/
def spec_is_blocking (P : Dims) (road : Road) (c : Coord)
    (maybe_max : Option Nat) : Except String Bool := do
  match ← road.first_car_back P c maybe_max with
  | some car =>
      pure (decide (car.front - c.long < car.next_iteration_potential_speed))
  | none => pure false

/-- Claim-side reading of C4: the largest k in {0, …, s'} whose
hypothetical placement (at candidate-speed width) introduces no
collision, k = 0 being unconditionally allowed. -/
def spec_fastest_safe_speed (P : Dims) (car : Car) (road : Road)
    (self_id : Nat) : Except String Int := do
  let safe ← filterExcept
    (fun k =>
      (is_collision_for P road.cells (car.potential_at k).occupied_cells
        (Vehicle.car self_id)).map (fun coll => !coll))
    (intRangeIcc 1 car.next_iteration_potential_speed)
  pure (safe.foldl max 0)

/-- Claim-side mean bike speed of C7: the arithmetic mean over the
bikes, "no value" when the cohort is empty. -/
def spec_mean_bike_speed (road : Road) : Option ℚ :=
  if road.bikes.isEmpty then none
  else some ((((road.bikes.map Bike.forward_speed).sum : Int) : ℚ) /
    ((road.bikes.length : Nat) : ℚ))

/-- Claim-side mean car speed of C7. -/
def spec_mean_car_speed (road : Road) : Option ℚ :=
  if road.cars.isEmpty then none
  else some ((((road.cars.map Car.speed).sum : Int) : ℚ) /
    ((road.cars.length : Nat) : ℚ))

/-! ### Well-formedness: the invariants of the data model -/

/-- The index-resident (longitudinally wrapped) form of a cell list. -/
def cellsV (P : Dims) (cs : List Coord) : List Coord :=
  cs.map (fun c => ⟨c.lat, c.long.emod (P.L : Int)⟩)

/-- A bike's index-resident cells. -/
def Bike.cellsV (P : Dims) (b : Bike) : List Coord :=
  Lovrle.cellsV P b.occupied_cells

/-- A car's index-resident cells. -/
def Car.cellsV (P : Dims) (car : Car) : List Coord :=
  Lovrle.cellsV P car.occupied_cells

/-- All cells have lat within `[0, W)` (the on-grid invariant; the
long component is wrapped by the index, so it carries no constraint). -/
def onGridList (P : Dims) (cs : List Coord) : Prop :=
  ∀ c ∈ cs, 0 ≤ c.lat ∧ c.lat < (P.total_width : Int)

/-- Ownership of an index cell by an agent. -/
def RoadOwner (P : Dims) (road : Road) (c : Coord) : Vehicle → Prop
  | .bike i => ∃ b, road.bikes.get? i = some b ∧ c ∈ b.cellsV P
  | .car j => ∃ car, road.cars.get? j = some car ∧ c ∈ car.cellsV P

/-- The invariants of the data model (§3 of the specification): valid
per-agent parameters, all agents on the grid, and an index that exactly
represents the agents' cells (which forces both the domain equation and
collision freedom). -/
structure WellFormed (P : Dims) (road : Road) : Prop where
  hL : 0 < P.L
  bike_dims : ∀ b ∈ road.bikes,
    1 ≤ b.occupation.width ∧ 1 ≤ b.occupation.length ∧
    0 ≤ b.forward_speed ∧ b.forward_speed ≤ b.forward_speed_max ∧
    1 ≤ b.forward_acceleration ∧ 0 ≤ b.rightward_speed_max ∧
    0 ≤ b.lateral_ignorance ∧ b.lateral_ignorance ≤ 1 ∧
    0 ≤ b.deceleration_prob ∧ b.deceleration_prob ≤ 1
  car_dims : ∀ car ∈ road.cars,
    1 ≤ car.length ∧ 0 < car.const_width ∧
    0 ≤ car.speed ∧ car.speed ≤ car.speed_max ∧
    0 ≤ car.deceleration_prob ∧ car.deceleration_prob ≤ 1
  bikes_on_grid : ∀ b ∈ road.bikes, onGridList P b.occupied_cells
  cars_on_grid : ∀ car ∈ road.cars, onGridList P car.occupied_cells
  represents : ∀ c v, road.cells c = some v ↔ RoadOwner P road c v

/-- The bike fields that a lateral update may not change (everything
except the occupation's `right`). -/
def bike_frame_eq (orig nb : Bike) : Prop :=
  nb.occupation.front = orig.occupation.front ∧
  nb.occupation.width = orig.occupation.width ∧
  nb.occupation.length = orig.occupation.length ∧
  nb.forward_speed = orig.forward_speed ∧
  nb.forward_speed_max = orig.forward_speed_max ∧
  nb.forward_acceleration = orig.forward_acceleration ∧
  nb.rightward_speed_max = orig.rightward_speed_max ∧
  nb.lateral_ignorance = orig.lateral_ignorance ∧
  nb.deceleration_prob = orig.deceleration_prob ∧
  nb.y_star_selection_strategy = orig.y_star_selection_strategy

/-- Invariant of the serial lateral acceptance loop.  `S` is the set
of already-processed bike ids; the index holds exactly the cars plus
the processed bikes' final cells, every processed bike keeps its frame
fields and sits on cells that in the pre-tick index belonged to nobody
but itself. -/
def AcceptInv (P : Dims) (preCells : Cells) (origBikes : List Bike)
    (cars : List Car) (S : Nat → Prop) (st : Cells × List Bike) : Prop :=
  st.2.length = origBikes.length ∧
  (∀ i, ¬ S i → st.2.get? i = origBikes.get? i) ∧
  (∀ i, S i → ∃ orig nb, origBikes.get? i = some orig ∧
    st.2.get? i = some nb ∧ bike_frame_eq orig nb ∧
    onGridList P nb.occupied_cells ∧
    (∀ c ∈ nb.cellsV P, ∀ w, preCells c = some w → w = Vehicle.bike i)) ∧
  (∀ c w, st.1 c = some w ↔
    (match w with
     | Vehicle.car j => ∃ car, cars.get? j = some car ∧ c ∈ car.cellsV P
     | Vehicle.bike i => S i ∧ ∃ nb, st.2.get? i = some nb ∧ c ∈ nb.cellsV P))

/-- Constructor test for `Except` (used to extract a success value from
a concrete computation whose result type has no decidable equality). -/
def exceptIsOk {e a : Type} : Except e a → Bool
  | .ok _ => true
  | .error _ => false

/-! ### Concrete states used by counterexamples and witnesses -/

/-- Build an index from an association list (used in concrete
computations only). -/
def cellsOfList (l : List (Coord × Vehicle)) : Cells :=
  fun c => (l.find? (fun p => p.1 = c)).map (fun p => p.2)

/-- A deterministic oracle: always-true Bernoulli draws, first-element
pick, identity shuffle. -/
def oracleId : Oracle where
  bike_ignore_draw := fun _ => true
  bike_decel_draw := fun _ => true
  car_decel_draw := fun _ => true
  pick := List.head?
  shuffle := id

/-- C1 scenario: L = 8, BLW = 2, MLW = 2 (both lane kinds). -/
def dimsC1 : Dims := ⟨8, 2, 2⟩

/-- C1 scenario: a 2×2 bike in the bike lane (lats 2-3, longs 2-3). -/
def bikeC1 : Bike where
  occupation := ⟨3, 3, 2, 2⟩
  forward_speed := 1
  forward_speed_max := 2
  forward_acceleration := 1
  rightward_speed_max := 1
  lateral_ignorance := mkRat 0 1
  deceleration_prob := mkRat 1 1
  y_star_selection_strategy := .rightmost

/-- C1 scenario: a 1×2 car in the motor lane (lat 0, longs 5-6). -/
def carC1 : Car where
  front := 6
  length := 2
  const_width := mkRat 1 1
  speed := 0
  fast_acceleration := 1
  slow_acceleration := 1
  max_slow_speed := 1
  speed_max := 2
  alpha := mkRat 0 1
  deceleration_prob := mkRat 1 2

/-- C1 scenario: the well-formed road holding `bikeC1` and `carC1`. -/
def roadC1 : Road where
  bikes := [bikeC1]
  cars := [carC1]
  cells := fun c =>
    if c ∈ bikeC1.cellsV dimsC1 then some (Vehicle.bike 0)
    else if c ∈ carC1.cellsV dimsC1 then some (Vehicle.car 0)
    else none

/-- C8 scenario: a single stationary bike (speed 0, acceleration 0,
`p_ignore = p_decel = 1`). -/
def bikeC8 : Bike where
  occupation := ⟨3, 3, 2, 2⟩
  forward_speed := 0
  forward_speed_max := 2
  forward_acceleration := 0
  rightward_speed_max := 1
  lateral_ignorance := mkRat 1 1
  deceleration_prob := mkRat 1 1
  y_star_selection_strategy := .rightmost

/-- C8 scenario: the otherwise-empty road holding only `bikeC8`. -/
def roadC8 : Road where
  bikes := [bikeC8]
  cars := []
  cells := fun c =>
    if c ∈ bikeC8.cellsV dimsC1 then some (Vehicle.bike 0) else none

/-- C2 scenario: L = 8, BLW = 4, MLW = 0 (bike lane only). -/
def dimsC2 : Dims := ⟨8, 4, 0⟩

/-- C2 scenario: the deliberating bike, 1×1 at (lat 1, long 3),
`r_max = 1`, Rightmost strategy. -/
def bikeC2 : Bike where
  occupation := ⟨3, 1, 1, 1⟩
  forward_speed_max := 5
  forward_speed := 0
  forward_acceleration := 1
  rightward_speed_max := 1
  lateral_ignorance := 0
  deceleration_prob := 0
  y_star_selection_strategy := .rightmost

/-- C2 scenario: an obstacle bike, 1×1 at (lat 2, long 5): it sits two
cells ahead in the rightmost reachable column, so moving right shrinks
the front gap from 8 to 1. -/
def bikeC2b : Bike where
  occupation := ⟨5, 2, 1, 1⟩
  forward_speed_max := 5
  forward_speed := 0
  forward_acceleration := 1
  rightward_speed_max := 1
  lateral_ignorance := 0
  deceleration_prob := 0
  y_star_selection_strategy := .rightmost

/-- C2 scenario road. -/
def roadC2 : Road where
  bikes := [bikeC2, bikeC2b]
  cars := []
  cells := cellsOfList [(⟨1, 3⟩, .bike 0), (⟨2, 5⟩, .bike 1)]

/-- The occupation `select_y_star` picks in the C2 scenario (used by
the C9 witness). -/
def bikeC2sel : Bike := { bikeC2 with occupation := ⟨3, 2, 1, 1⟩ }

/-- A bike occupying `occC6` (the lone 2×1 occupier), used by the C5
witness. -/
def bikeC5 : Bike where
  occupation := ⟨3, 3, 2, 1⟩
  forward_speed_max := 6
  forward_speed := 2
  forward_acceleration := 1
  rightward_speed_max := 2
  lateral_ignorance := 0
  deceleration_prob := 0
  y_star_selection_strategy := .rightmost

/-- C3/C6 scenario grid: L = 20, BLW = 3, MLW = 3. -/
def dimsC3 : Dims := ⟨20, 3, 3⟩

/-- C3 scenario: the default-parameter car (width formula
`ceil(4.2 + 0.26·s)`) at front 7, speed 0. -/
def carC3 : Car where
  front := 7
  length := 5
  const_width := mkRat 21 5
  speed := 0
  fast_acceleration := 1
  slow_acceleration := 2
  max_slow_speed := 5
  speed_max := 20
  alpha := mkRat 13 50
  deceleration_prob := 0

/-- C3 scenario road: just the car. -/
def roadC3 : Road where
  bikes := []
  cars := [carC3]
  cells := cellsOfList (carC3.occupied_cells.map (fun c => (c, .car 0)))

/-- C3 witness scenario: the same car moved to front 15 so that the
backward scan from (0, 2) wraps and the raw distance is positive. -/
def carC3w : Car := { carC3 with front := 15 }

/-- C3 witness road. -/
def roadC3w : Road where
  bikes := []
  cars := [carC3w]
  cells := cellsOfList (carC3w.occupied_cells.map (fun c => (c, .car 0)))

/-- C4 scenario grid: L = 30, W = 7 (motor lane only). -/
def dimsC4 : Dims := ⟨30, 0, 7⟩

/-- C4 scenario: default-parameter car at front 10 with speed 4, so its
potential speed is 6 and its current width is 6. -/
def carC4 : Car where
  front := 10
  length := 5
  const_width := mkRat 21 5
  speed := 4
  fast_acceleration := 1
  slow_acceleration := 2
  max_slow_speed := 5
  speed_max := 20
  alpha := mkRat 13 50
  deceleration_prob := 0

/-- C4 scenario: a 1×1 bike obstacle at (lat 2, long 11), one cell
ahead of the car: candidates k = 1..5 collide with it, k = 6 does not. -/
def bikeC4 : Bike where
  occupation := ⟨11, 2, 1, 1⟩
  forward_speed_max := 5
  forward_speed := 0
  forward_acceleration := 1
  rightward_speed_max := 1
  lateral_ignorance := 0
  deceleration_prob := 0
  y_star_selection_strategy := .rightmost

/-- C4 scenario road. -/
def roadC4 : Road where
  bikes := [bikeC4]
  cars := [carC4]
  cells := cellsOfList
    (carC4.occupied_cells.map (fun c => (c, .car 0)) ++ [(⟨2, 11⟩, .bike 0)])

/-- C6 counterexample: a lone 2×1 occupier (length 1). -/
def occC6 : RectangleOccupier := ⟨3, 3, 2, 1⟩

/-- C6 counterexample road: only the lone occupier's cells. -/
def roadC6 : Road where
  bikes := []
  cars := []
  cells := cellsOfList (occC6.occupied_cells.map (fun c => (c, .bike 0)))

/-- C6 witness occupier: the 2×2 rectangle of the repository's
`single_bike_front_gap_works_as_expected` test. -/
def occC6w : RectangleOccupier := ⟨16, 4, 2, 2⟩

/-- C6 witness road: exactly the lone occupier's wrapped cells. -/
def roadC6w : Road where
  bikes := []
  cars := []
  cells := fun c =>
    if c ∈ cellsV dimsC3 occC6w.occupied_cells then some (.bike 0) else none

/-- C7 failing input: one bike at forward speed 4, two cars. -/
def bikeC7 : Bike where
  occupation := ⟨3, 4, 2, 2⟩
  forward_speed_max := 6
  forward_speed := 4
  forward_acceleration := 1
  rightward_speed_max := 2
  lateral_ignorance := 0
  deceleration_prob := 0
  y_star_selection_strategy := .rightmost

/-- C7 failing input road (the index is irrelevant to the means). -/
def roadC7 : Road where
  bikes := [bikeC7]
  cars := [carC3, carC3w]
  cells := fun _ => none

end Lovrle

namespace Lovrle

/-! ### Basic lemmas about the integer ranges -/

theorem mem_intRangeIcc {a b x : Int} :
    x ∈ intRangeIcc a b ↔ a ≤ x ∧ x ≤ b := by
  simp only [intRangeIcc, List.mem_map, List.mem_range]
  constructor
  · rintro ⟨i, hi, rfl⟩
    omega
  · rintro ⟨h1, h2⟩
    exact ⟨(x - a).toNat, by omega, by omega⟩

theorem mem_intRangeIco {a b x : Int} :
    x ∈ intRangeIco a b ↔ a ≤ x ∧ x < b := by
  simp only [intRangeIco, List.mem_map, List.mem_range]
  constructor
  · rintro ⟨i, hi, rfl⟩
    omega
  · rintro ⟨h1, h2⟩
    exact ⟨(x - a).toNat, by omega, by omega⟩

theorem intRangeIcc_nodup (a b : Int) : (intRangeIcc a b).Nodup := by
  refine List.Nodup.map ?_ (List.nodup_range _)
  intro i j h
  simpa using h

theorem length_intRangeIcc (a b : Int) :
    (intRangeIcc a b).length = (b + 1 - a).toNat := by
  simp [intRangeIcc]

theorem saturating_sub_unsigned_of_le {x : Int} {y : Nat}
    (h : isizeMin ≤ x - (y : Int)) :
    saturating_sub_unsigned x y = x - (y : Int) :=
  max_eq_left h

/-! ### Except-monad and combinator lemmas -/

theorem except_bind_ok {α β : Type} (a : α) (f : α → Except String β) :
    (Except.ok a >>= f : Except String β) = f a := rfl

theorem except_bind_error {α β : Type} (e : String)
    (f : α → Except String β) :
    ((Except.error e : Except String α) >>= f) = Except.error e := rfl

theorem except_pure {α : Type} (a : α) :
    (pure a : Except String α) = Except.ok a := rfl

theorem except_map_ok {α β : Type} (f : α → β) (a : α) :
    (Except.map f (Except.ok a : Except String α)) = Except.ok (f a) := rfl

theorem except_map_eq_ok {α β : Type} {f : α → β} {x : Except String α}
    {b : β} (h : Except.map f x = .ok b) : ∃ a, x = .ok a ∧ b = f a := by
  cases x with
  | error e => simp [Except.map] at h
  | ok a => exact ⟨a, rfl, by simpa [Except.map] using h.symm⟩

theorem filterExcept_sub {α : Type} {p : α → Except String Bool}
    {l r : List α} (h : filterExcept p l = .ok r) :
    ∀ x ∈ r, x ∈ l ∧ p x = .ok true := by
  induction l generalizing r with
  | nil =>
      simp only [filterExcept, except_pure, Except.ok.injEq] at h
      subst h
      simp
  | cons a as ih =>
      unfold filterExcept at h
      cases hp : p a with
      | error e => rw [hp, except_bind_error] at h; cases h
      | ok keep =>
          rw [hp, except_bind_ok] at h
          cases hrest : filterExcept p as with
          | error e => rw [hrest, except_bind_error] at h; cases h
          | ok rest =>
              rw [hrest, except_bind_ok, except_pure] at h
              have hr : (if keep then a :: rest else rest) = r := by
                injection h
              intro x hx
              cases keep with
              | false =>
                  rw [if_neg (by simp)] at hr
                  subst hr
                  obtain ⟨h1, h2⟩ := ih hrest x hx
                  exact ⟨List.mem_cons_of_mem _ h1, h2⟩
              | true =>
                  rw [if_pos rfl] at hr
                  subst hr
                  rcases List.mem_cons.mp hx with rfl | hx2
                  · exact ⟨List.mem_cons_self _ _, hp⟩
                  · obtain ⟨h1, h2⟩ := ih hrest x hx2
                    exact ⟨List.mem_cons_of_mem _ h1, h2⟩

theorem mapExcept_length {α β : Type} {f : α → Except String β}
    {l : List α} {r : List β} (h : mapExcept f l = .ok r) :
    r.length = l.length := by
  induction l generalizing r with
  | nil =>
      simp only [mapExcept, except_pure, Except.ok.injEq] at h
      subst h; rfl
  | cons a as ih =>
      unfold mapExcept at h
      cases hf : f a with
      | error e => rw [hf, except_bind_error] at h; cases h
      | ok b =>
          rw [hf, except_bind_ok] at h
          cases hrest : mapExcept f as with
          | error e => rw [hrest, except_bind_error] at h; cases h
          | ok rest =>
              rw [hrest, except_bind_ok, except_pure] at h
              have : b :: rest = r := by injection h
              subst this
              simpa using ih hrest

theorem mapExcept_get {α β : Type} {f : α → Except String β}
    {l : List α} {r : List β} (h : mapExcept f l = .ok r) :
    ∀ i x, l.get? i = some x → ∃ y, r.get? i = some y ∧ f x = .ok y := by
  induction l generalizing r with
  | nil => intro i x hx; simp at hx
  | cons a as ih =>
      unfold mapExcept at h
      cases hf : f a with
      | error e => rw [hf, except_bind_error] at h; cases h
      | ok b =>
          rw [hf, except_bind_ok] at h
          cases hrest : mapExcept f as with
          | error e => rw [hrest, except_bind_error] at h; cases h
          | ok rest =>
              rw [hrest, except_bind_ok, except_pure] at h
              have : b :: rest = r := by injection h
              subst this
              intro i x hx
              cases i with
              | zero =>
                  simp only [List.get?] at hx
                  injection hx with hx
                  subst hx
                  exact ⟨b, rfl, hf⟩
              | succ n => exact ih hrest n x hx

theorem mapExcept_mem {α β : Type} {f : α → Except String β}
    {l : List α} {r : List β} (h : mapExcept f l = .ok r) :
    ∀ y ∈ r, ∃ x ∈ l, f x = .ok y := by
  induction l generalizing r with
  | nil =>
      simp only [mapExcept, except_pure, Except.ok.injEq] at h
      subst h
      simp
  | cons a as ih =>
      unfold mapExcept at h
      cases hf : f a with
      | error e => rw [hf, except_bind_error] at h; cases h
      | ok b =>
          rw [hf, except_bind_ok] at h
          cases hrest : mapExcept f as with
          | error e => rw [hrest, except_bind_error] at h; cases h
          | ok rest =>
              rw [hrest, except_bind_ok, except_pure] at h
              have : b :: rest = r := by injection h
              subst this
              intro y hy
              rcases List.mem_cons.mp hy with rfl | hy2
              · exact ⟨a, List.mem_cons_self _ _, hf⟩
              · obtain ⟨x, hx1, hx2⟩ := ih hrest y hy2
                exact ⟨x, List.mem_cons_of_mem _ hx1, hx2⟩

theorem mapExcept_of_forall {α β : Type} {f : α → Except String β}
    {l : List α} (h : ∀ x ∈ l, ∃ y, f x = .ok y) :
    ∃ r, mapExcept f l = .ok r := by
  induction l with
  | nil => exact ⟨[], rfl⟩
  | cons a as ih =>
      obtain ⟨y, hy⟩ := h a (List.mem_cons_self _ _)
      obtain ⟨r, hr⟩ := ih (fun x hx => h x (List.mem_cons_of_mem _ hx))
      exact ⟨y :: r, by unfold mapExcept; rw [hy, except_bind_ok, hr, except_bind_ok, except_pure]⟩

/-! ### validate_coord, erase and insert lemmas -/

theorem validate_coord_ok {P : Dims} {c vc : Coord}
    (h : validate_coord P c = .ok vc) :
    0 ≤ c.lat ∧ c.lat < (P.total_width : Int) ∧ 0 < P.L ∧
      vc = ⟨c.lat, c.long.emod (P.L : Int)⟩ := by
  unfold validate_coord at h
  split at h
  · cases h
  · split at h
    · split at h
      · cases h
      · refine ⟨by omega, by assumption, by omega, by injection h with h; exact h.symm⟩
    · cases h

theorem validate_coord_of {P : Dims} {c : Coord} (h1 : 0 ≤ c.lat)
    (h2 : c.lat < (P.total_width : Int)) (hL : 0 < P.L) :
    validate_coord P c = .ok ⟨c.lat, c.long.emod (P.L : Int)⟩ := by
  unfold validate_coord
  rw [if_neg (by omega), if_pos h2, if_neg (by omega)]

theorem mapExcept_validate_ok {P : Dims} {cs vcs : List Coord}
    (h : mapExcept (validate_coord P) cs = .ok vcs) :
    vcs = cellsV P cs ∧ onGridList P cs := by
  constructor
  · have hlen := mapExcept_length h
    have hlen2 : (cellsV P cs).length = cs.length := by simp [cellsV]
    refine List.ext_get? ?_
    intro i
    cases hi : cs.get? i with
    | none =>
        have : cs.length ≤ i := by
          by_contra hlt
          rw [List.get?_eq_get (by omega)] at hi
          cases hi
        rw [List.get?_eq_none.mpr (by omega), List.get?_eq_none.mpr (by simp [cellsV]; omega)]
    | some c =>
        obtain ⟨vc, hvc, hval⟩ := mapExcept_get h i c hi
        obtain ⟨_, _, _, rfl⟩ := validate_coord_ok hval
        rw [hvc]
        have : (cellsV P cs).get? i = some ⟨c.lat, c.long.emod (P.L : Int)⟩ := by
          rw [cellsV, List.get?_map, hi]
          rfl
        rw [this]
  · intro c hc
    obtain ⟨i, hi⟩ := List.get?_of_mem hc
    obtain ⟨vc, _, hval⟩ := mapExcept_get h i c hi
    obtain ⟨h1, h2, _, _⟩ := validate_coord_ok hval
    exact ⟨h1, h2⟩

theorem mapExcept_validate_of {P : Dims} {cs : List Coord}
    (hg : onGridList P cs) (hL : 0 < P.L) :
    mapExcept (validate_coord P) cs = .ok (cellsV P cs) := by
  induction cs with
  | nil => rfl
  | cons c rest ih =>
      obtain ⟨h1, h2⟩ := hg c (List.mem_cons_self _ _)
      unfold mapExcept
      rw [validate_coord_of h1 h2 hL, except_bind_ok,
        ih (fun x hx => hg x (List.mem_cons_of_mem _ hx)), except_bind_ok,
        except_pure]
      rfl

theorem erase_cells_apply (cells : Cells) (cs : List Coord) (x : Coord) :
    erase_cells cells cs x = if x ∈ cs then none else cells x := by
  induction cs generalizing cells with
  | nil => simp [erase_cells]
  | cons c rest ih =>
      show erase_cells (fun y => if y = c then none else cells y) rest x = _
      rw [ih]
      by_cases hx : x ∈ rest
      · rw [if_pos hx, if_pos (List.mem_cons_of_mem _ hx)]
      · rw [if_neg hx]
        by_cases hc : x = c
        · rw [if_pos hc, if_pos (by rw [hc]; exact List.mem_cons_self _ _)]
        · rw [if_neg hc, if_neg (by simp [List.mem_cons, hc, hx])]

theorem insert_cells_apply (cells : Cells) (cs : List Coord) (v : Vehicle)
    (x : Coord) :
    insert_cells cells cs v x = if x ∈ cs then some v else cells x := by
  induction cs generalizing cells with
  | nil => simp [insert_cells]
  | cons c rest ih =>
      show insert_cells (fun y => if y = c then some v else cells y) rest v x = _
      rw [ih]
      by_cases hx : x ∈ rest
      · rw [if_pos hx, if_pos (List.mem_cons_of_mem _ hx)]
      · rw [if_neg hx]
        by_cases hc : x = c
        · rw [if_pos hc, if_pos (by rw [hc]; exact List.mem_cons_self _ _)]
        · rw [if_neg hc, if_neg (by simp [List.mem_cons, hc, hx])]

/-! ### Selector and candidate-set lemmas (bike lateral machinery) -/

theorem rightmost_step_isSome (acc : Option RectangleOccupier)
    (x : RectangleOccupier) : ∃ a, rightmost_step acc x = some a := by
  cases acc with
  | none => exact ⟨x, rfl⟩
  | some a =>
      simp only [rightmost_step]
      by_cases hle : a.right ≤ x.right
      · exact ⟨x, by rw [if_pos hle]⟩
      · exact ⟨a, by rw [if_neg hle]⟩

theorem rightmost_fold_some {l : List RectangleOccupier} :
    ∀ {acc : Option RectangleOccupier} {m : RectangleOccupier},
      l.foldl rightmost_step acc = some m →
      (acc = some m ∨ m ∈ l) ∧ (∀ x ∈ l, x.right ≤ m.right) ∧
        ∀ a, acc = some a → a.right ≤ m.right := by
  induction l with
  | nil =>
      intro acc m h
      simp only [List.foldl] at h
      exact ⟨Or.inl h, by simp, fun a ha => by
        rw [ha] at h; injection h with h; rw [h]⟩
  | cons x rest ih =>
      intro acc m h
      simp only [List.foldl] at h
      obtain ⟨hmem, hmax, hacc⟩ := ih h
      obtain ⟨a', ha'⟩ := rightmost_step_isSome acc x
      have hxa : x.right ≤ a'.right := by
        cases acc with
        | none => injection ha' with ha'; rw [← ha']
        | some a =>
            simp only [rightmost_step] at ha'
            by_cases hle : a.right ≤ x.right
            · rw [if_pos hle] at ha'; injection ha' with ha'; rw [← ha']
            · rw [if_neg hle] at ha'; injection ha' with ha'; rw [← ha']; omega
      have ha'm : a'.right ≤ m.right := hacc a' ha'
      refine ⟨?_, ?_, ?_⟩
      · rcases hmem with hstep | hmem
        · rw [ha'] at hstep
          injection hstep with hstep
          subst hstep
          cases acc with
          | none =>
              simp only [rightmost_step] at ha'
              injection ha' with ha'
              exact Or.inr (by rw [← ha']; exact List.mem_cons_self _ _)
          | some a =>
              simp only [rightmost_step] at ha'
              by_cases hle : a.right ≤ x.right
              · rw [if_pos hle] at ha'
                injection ha' with ha'
                exact Or.inr (by rw [← ha']; exact List.mem_cons_self _ _)
              · rw [if_neg hle] at ha'
                exact Or.inl ha'
        · exact Or.inr (List.mem_cons_of_mem _ hmem)
      · intro y hy
        rcases List.mem_cons.mp hy with rfl | hy2
        · omega
        · exact hmax y hy2
      · intro a ha
        subst ha
        have : a.right ≤ a'.right := by
          simp only [rightmost_step] at ha'
          by_cases hle : a.right ≤ x.right
          · rw [if_pos hle] at ha'; injection ha' with ha'; rw [← ha']; omega
          · rw [if_neg hle] at ha'; injection ha' with ha'; rw [← ha']
        omega

theorem rightmost_fold_isSome {l : List RectangleOccupier} :
    ∀ {acc : Option RectangleOccupier}, acc.isSome ∨ l ≠ [] →
      ∃ m, l.foldl rightmost_step acc = some m := by
  induction l with
  | nil =>
      intro acc h
      rcases h with h | h
      · obtain ⟨a, ha⟩ := Option.isSome_iff_exists.mp h
        exact ⟨a, ha⟩
      · exact absurd rfl h
  | cons x rest ih =>
      intro acc _
      simp only [List.foldl]
      obtain ⟨a', ha'⟩ := rightmost_step_isSome acc x
      rw [ha']
      exact ih (Or.inl rfl)

theorem rightmost_selector_mem {l : List RectangleOccupier}
    {m : RectangleOccupier} (h : rightmost_y_star_selector l = some m) :
    m ∈ l ∧ ∀ x ∈ l, x.right ≤ m.right := by
  obtain ⟨hmem, hmax, _⟩ := rightmost_fold_some h
  rcases hmem with hbad | hmem
  · cases hbad
  · exact ⟨hmem, hmax⟩

theorem rightmost_selector_of_ne_nil {l : List RectangleOccupier}
    (h : l ≠ []) : ∃ m, rightmost_y_star_selector l = some m :=
  rightmost_fold_isSome (Or.inr h)

theorem y_prime_mem {P : Dims} {b : Bike} {road : Road} {self_id : Nat}
    {l : List RectangleOccupier}
    (h : b.y_prime_j_t_plus_1 P road self_id = .ok l) :
    ∀ x ∈ l,
      x.front = b.occupation.front ∧ x.width = b.occupation.width ∧
      x.length = b.occupation.length ∧
      road_contains_occupier P x.occupied_cells = true ∧
      is_collision_for P road.cells x.occupied_cells
        (Vehicle.bike self_id) = .ok false := by
  intro x hx
  obtain ⟨hmem, hpred⟩ := filterExcept_sub h x hx
  obtain ⟨hmap, honroad⟩ := List.mem_filter.mp hmem
  obtain ⟨pos, _, hx_eq⟩ := List.mem_map.mp hmap
  obtain ⟨cv, hcv, hnot⟩ := except_map_eq_ok hpred
  have hcoll : cv = false := by
    cases cv
    · rfl
    · cases hnot
  subst hcoll
  subst hx_eq
  exact ⟨rfl, rfl, rfl, honroad, hcv⟩

theorem y_prime_prime_sub {P : Dims} {road : Road}
    {cur : RectangleOccupier} {yp l : List RectangleOccupier}
    (h : y_prime_prime_j_t_plus_1 P road cur yp = .ok l) :
    ∀ x ∈ l, x ∈ yp := by
  unfold y_prime_prime_j_t_plus_1 at h
  cases hm : determine_y_prime_prime_j_t_plus_1_filter P road cur with
  | error e => rw [hm, except_bind_error] at h; cases h
  | ok mode =>
      rw [hm, except_bind_ok] at h
      cases mode with
      | motorLaneBlocking =>
          simp only [y_prime_prime_motor_lane_blocking] at h
          by_cases hbl : (List.filter (fun occupier =>
              !motor_lane_contains_occupier P occupier.occupied_cells) yp).isEmpty
          · rw [if_pos hbl] at h
            cases hlast : (List.filter (fun occupier =>
                motor_lane_contains_occupier P occupier.occupied_cells) yp).getLast? with
            | none => rw [hlast] at h; cases h
            | some occ =>
                rw [hlast] at h
                simp only [except_pure] at h
                have hocc : occ ∈ List.filter (fun occupier =>
                    motor_lane_contains_occupier P occupier.occupied_cells) yp := by
                  obtain ⟨hne, heq⟩ := List.mem_getLast?_eq_getLast
                    (x := occ) (by rw [Option.mem_def, hlast])
                  rw [heq]
                  exact List.getLast_mem hne
                have heq : [occ] = l := by injection h
                subst heq
                intro x hx
                rcases List.mem_singleton.mp hx with rfl
                exact (List.mem_filter.mp hocc).1
          · rw [if_neg hbl, except_pure] at h
            have heq : List.filter (fun occupier =>
                !motor_lane_contains_occupier P occupier.occupied_cells) yp = l := by
              injection h
            subst heq
            intro x hx
            exact (List.mem_filter.mp hx).1
      | motorLaneNonBlocking =>
          intro x hx
          exact (filterExcept_sub h x hx).1
      | bikeLane =>
          intro x hx
          exact (filterExcept_sub h x hx).1

theorem bike_y_prime_prime_mem {P : Dims} {b : Bike} {road : Road}
    {self_id : Nat} {l : List RectangleOccupier}
    (h : b.y_prime_prime P road self_id = .ok l) :
    ∀ x ∈ l,
      x.front = b.occupation.front ∧ x.width = b.occupation.width ∧
      x.length = b.occupation.length ∧
      road_contains_occupier P x.occupied_cells = true ∧
      is_collision_for P road.cells x.occupied_cells
        (Vehicle.bike self_id) = .ok false := by
  unfold Bike.y_prime_prime at h
  cases hyp : b.y_prime_j_t_plus_1 P road self_id with
  | error e => rw [hyp, except_bind_error] at h; cases h
  | ok yp =>
      rw [hyp, except_bind_ok] at h
      intro x hx
      exact y_prime_mem hyp x (y_prime_prime_sub h x hx)

theorem select_y_star_cases {P : Dims} {b : Bike} {road : Road}
    {self_id : Nat}
    {pick : List RectangleOccupier → Option RectangleOccupier}
    {occ : RectangleOccupier}
    (hpick : ∀ l x, pick l = some x → x ∈ l)
    (h : b.select_y_star P road self_id pick = .ok occ) :
    occ = b.occupation ∨
      ∃ ypp, b.y_prime_prime P road self_id = .ok ypp ∧ occ ∈ ypp := by
  unfold Bike.select_y_star at h
  cases hypp : b.y_prime_prime P road self_id with
  | error e => rw [hypp, except_bind_error] at h; cases h
  | ok ypp =>
      rw [hypp, except_bind_ok, except_pure] at h
      have hocc : (match b.y_star_selection_strategy with
          | YStarSelectionStrategy.rightmost => rightmost_y_star_selector ypp
          | YStarSelectionStrategy.uniformRandom => pick ypp).getD b.occupation
          = occ := by injection h
      cases hstrat : b.y_star_selection_strategy with
      | rightmost =>
          rw [hstrat] at hocc
          cases hsel : rightmost_y_star_selector ypp with
          | none => rw [hsel] at hocc; exact Or.inl hocc.symm
          | some m =>
              rw [hsel] at hocc
              simp only [Option.getD_some] at hocc
              subst hocc
              exact Or.inr ⟨ypp, rfl, (rightmost_selector_mem hsel).1⟩
      | uniformRandom =>
          rw [hstrat] at hocc
          cases hsel : pick ypp with
          | none => rw [hsel] at hocc; exact Or.inl hocc.symm
          | some m =>
              rw [hsel] at hocc
              simp only [Option.getD_some] at hocc
              subst hocc
              exact Or.inr ⟨ypp, rfl, hpick _ _ hsel⟩

/-! ### C10: characterization of `rectangle_occupation` -/

/-- **C10.**  For a rectangle occupation with positive width and
length whose saturating subtractions do not saturate, the occupied
cells are exactly the `width × length` pairwise-distinct coordinates
`(lat, long)` with `right − width + 1 ≤ lat ≤ right` and
`front − length + 1 ≤ long ≤ front`. -/
theorem rectangle_occupation_characterization
    (front right : Int) (width length : Nat)
    (hw : 1 ≤ width) (hl : 1 ≤ length)
    (hsatr : isizeMin ≤ right - (width : Int))
    (hsatf : isizeMin ≤ front - (length : Int)) :
    (rectangle_occupation front right width length).length = width * length ∧
    (rectangle_occupation front right width length).Nodup ∧
    ∀ c : Coord, c ∈ rectangle_occupation front right width length ↔
      (right - (width : Int) + 1 ≤ c.lat ∧ c.lat ≤ right ∧
        front - (length : Int) + 1 ≤ c.long ∧ c.long ≤ front) := by
  have hr := saturating_sub_unsigned_of_le hsatr
  have hf := saturating_sub_unsigned_of_le hsatf
  have key : rectangle_occupation front right width length =
      ((intRangeIcc (right - (width : Int) + 1) right) ×ˢ
        (intRangeIcc (front - (length : Int) + 1) front)).map
        (fun p => Coord.mk p.1 p.2) := by
    unfold rectangle_occupation
    rw [hr, hf]
    simp [SProd.sprod, List.product, List.map_flatMap, List.map_map,
      Function.comp_def]
  refine ⟨?_, ?_, ?_⟩
  · rw [key, List.length_map, List.length_product,
      length_intRangeIcc, length_intRangeIcc]
    have h1 : (right + 1 - (right - (width : Int) + 1)).toNat = width := by omega
    have h2 : (front + 1 - (front - (length : Int) + 1)).toNat = length := by omega
    rw [h1, h2]
  · rw [key]
    refine List.Nodup.map ?_
      (List.Nodup.product (intRangeIcc_nodup _ _) (intRangeIcc_nodup _ _))
    intro p q h
    have h1 : p.1 = q.1 := congrArg Coord.lat h
    have h2 : p.2 = q.2 := congrArg Coord.long h
    exact Prod.ext h1 h2
  · intro c
    rw [key]
    simp only [List.mem_map]
    constructor
    · rintro ⟨⟨u, v⟩, hm, rfl⟩
      rw [List.mem_product] at hm
      rw [mem_intRangeIcc, mem_intRangeIcc] at hm
      exact ⟨hm.1.1, hm.1.2, hm.2.1, hm.2.2⟩
    · rintro ⟨h1, h2, h3, h4⟩
      refine ⟨(c.lat, c.long), ?_, rfl⟩
      rw [List.mem_product, mem_intRangeIcc, mem_intRangeIcc]
      exact ⟨⟨h1, h2⟩, h3, h4⟩

/-- The integer-arithmetic car width formula agrees with the ceiling
formula `(const_width + alpha * speed).ceil() as usize` of car.rs. -/
theorem lateral_occupancy_eq_ceil (cw al : ℚ) (s : Int) :
    lateral_occupancy cw s al = (max ⌈cw + al * (s : Int)⌉ 0).toNat := by
  unfold lateral_occupancy
  have h1 : (cw.num : ℚ) = cw * (cw.den : ℚ) :=
    (div_eq_iff (by positivity)).mp (Rat.num_div_den cw)
  have h2 : (al.num : ℚ) = al * (al.den : ℚ) :=
    (div_eq_iff (by positivity)).mp (Rat.num_div_den al)
  have hq : cw + al * (s : ℚ) =
      ((cw.num * (al.den : Int) + al.num * s * (cw.den : Int) : Int) : ℚ) /
        ((cw.den * al.den : ℕ) : ℚ) := by
    rw [eq_div_iff (by positivity)]
    push_cast
    rw [h1, h2]
    ring
  rw [hq]
  have hfloor := Rat.floor_intCast_div_natCast
    (-(cw.num * (al.den : Int) + al.num * s * (cw.den : Int))) (cw.den * al.den)
  have hceil := Int.floor_neg
    (α := ℚ)
    (a := ((cw.num * (al.den : Int) + al.num * s * (cw.den : Int) : Int) : ℚ) /
      ((cw.den * al.den : ℕ) : ℚ))
  rw [← neg_div] at hceil
  push_cast at hceil hfloor
  rw [hfloor] at hceil
  have hkey : ⌈((cw.num * (al.den : Int) + al.num * s * (cw.den : Int) : Int) : ℚ) /
      ((cw.den * al.den : ℕ) : ℚ)⌉ =
      -((-(cw.num * (al.den : Int) + al.num * s * (cw.den : Int))).ediv
        ((cw.den : Int) * (al.den : Int))) := by
    have hdiv : (-(cw.num * (al.den : Int) + al.num * s * (cw.den : Int))) /
        ((cw.den : Int) * (al.den : Int)) =
        (-(cw.num * (al.den : Int) + al.num * s * (cw.den : Int))).ediv
        ((cw.den : Int) * (al.den : Int)) := rfl
    push_cast at hceil ⊢
    rw [hdiv] at hceil
    linarith [hceil]
  push_cast at hkey ⊢
  rw [hkey]

/-- Witness for C10 at `front = 2, right = 5, width = 2, length = 2`
(the `rectangle_occupies_cells_correct` configuration of road.rs). -/
theorem rectangle_occupation_characterization_witness :
    (rectangle_occupation 2 5 2 2).length = 2 * 2 ∧
    (rectangle_occupation 2 5 2 2).Nodup ∧
    ∀ c : Coord, c ∈ rectangle_occupation 2 5 2 2 ↔
      (5 - (2 : Int) + 1 ≤ c.lat ∧ c.lat ≤ 5 ∧
        2 - (2 : Int) + 1 ≤ c.long ∧ c.long ≤ 2) :=
  rectangle_occupation_characterization 2 5 2 2 (by decide) (by decide)
    (by norm_num [isizeMin]) (by norm_num [isizeMin])


/-! ### C2, C3, C4, C6, C7: counterexamples and failing inputs -/

/-- **C2 counterexample.**  On `roadC2` the scenario bike's candidate
set Y'' is {right 0, 1, 2} with front gaps {8, 8, 1}: the maximal set
of the priority preorder is {right 0, right 1}, whose rightmost element
has right 1 — but `select_y_star` (which applies the Rightmost selector
to all of Y'' without the priority step) returns the occupation with
right 2. -/
theorem select_y_star_ignores_priority_counterexample :
    bikeC2.select_y_star dimsC2 roadC2 0 oracleId.pick =
      .ok ⟨3, 2, 1, 1⟩ ∧
    spec_select_y_star dimsC2 bikeC2 roadC2 0 = .ok ⟨3, 1, 1, 1⟩ ∧
    (⟨3, 2, 1, 1⟩ : RectangleOccupier) ≠ ⟨3, 1, 1, 1⟩ := by decide

/-- **C3 counterexample.**  On `roadC3` the backward scan from
(0, 10) finds the trailing car at front 7; its potential next speed is
2 and `car.front − c.long = −3`, so the claim's "strictly exceeds"
reading says blocked — but `is_blocking` (which tests
`potential < car.front − c.long`) returns false. -/
theorem is_blocking_inverted_counterexample :
    roadC3.is_blocking dimsC3 ⟨0, 10⟩ none = .ok false ∧
    spec_is_blocking dimsC3 roadC3 ⟨0, 10⟩ none = .ok true := by decide

/-- **C4 counterexample.**  On `roadC4` the car's candidate speeds are
1..6; candidates 1..5 collide with the bike one cell ahead and
candidate 6 clears it, so the largest collision-free k is 6 — but
`fastest_safe_speed` (an ascending scan that stops at the first
collision) returns 0. -/
theorem fastest_safe_speed_not_largest_counterexample :
    carC4.fastest_safe_speed dimsC4 roadC4 0 = .ok 0 ∧
    spec_fastest_safe_speed dimsC4 carC4 roadC4 0 = .ok 6 ∧
    (0 : Int) ≠ 6 := by decide

/-- **C6 counterexample.**  A lone occupier of length 1 on the
otherwise empty 20-ring: its column scan never finds an occupied cell
(its only cell is the start itself), so the road front gap is
`max = L = 20`, not `L − length = 19`. -/
theorem front_gap_lone_length_one_counterexample :
    roadC6.front_gap dimsC3 occC6 = .ok (some 20) ∧
    dimsC3.L - occC6.length ≠ 20 := by decide

/-- **C7 (code bug).**  `mean_bike_speed` divides the bike speed sum
by the car count `C`: on a road with one bike at speed 4 and two cars
it returns 2 instead of the arithmetic mean 4, and on an empty cohort
it divides by zero instead of returning "no value". -/
theorem mean_bike_speed_uses_car_count :
    roadC7.mean_bike_speed = 2 ∧
    spec_mean_bike_speed roadC7 = some 4 ∧
    ((2 : ℚ) ≠ 4) := by
  refine ⟨?_, ?_, by norm_num⟩
  · norm_num [Road.mean_bike_speed, roadC7, bikeC7]
  · norm_num [spec_mean_bike_speed, roadC7, bikeC7]


/-! ### C9: the lateral update only moves the right edge -/

/-- **C9.**  A successful `lateral_update` changes at most the
occupation's `right`: front, width, length, forward speed and every
other parameter are those of the original bike, in both the
ignore-draw and the deliberation path. -/
theorem lateral_update_frame (P : Dims) (b : Bike) (self_id : Nat)
    (road : Road) (ignore_draw : Bool)
    (pick : List RectangleOccupier → Option RectangleOccupier)
    (hpick : ∀ l x, pick l = some x → x ∈ l) (nb : Bike)
    (h : b.lateral_update P self_id road ignore_draw pick = .ok nb) :
    nb.occupation.front = b.occupation.front ∧
    nb.occupation.width = b.occupation.width ∧
    nb.occupation.length = b.occupation.length ∧
    nb.forward_speed = b.forward_speed ∧
    nb.forward_speed_max = b.forward_speed_max ∧
    nb.forward_acceleration = b.forward_acceleration ∧
    nb.rightward_speed_max = b.rightward_speed_max ∧
    nb.lateral_ignorance = b.lateral_ignorance ∧
    nb.deceleration_prob = b.deceleration_prob ∧
    nb.y_star_selection_strategy = b.y_star_selection_strategy := by
  unfold Bike.lateral_update at h
  by_cases hig : ignore_draw
  · rw [if_pos hig, except_pure] at h
    have hbn : b = nb := by injection h
    subst hbn
    exact ⟨rfl, rfl, rfl, rfl, rfl, rfl, rfl, rfl, rfl, rfl⟩
  · rw [if_neg hig] at h
    obtain ⟨occ, hsel, hnb⟩ := except_map_eq_ok h
    subst hnb
    rcases select_y_star_cases hpick hsel with heq | ⟨ypp, hypp, hmem⟩
    · subst heq
      exact ⟨rfl, rfl, rfl, rfl, rfl, rfl, rfl, rfl, rfl, rfl⟩
    · obtain ⟨hf, hw, hl, _, _⟩ := bike_y_prime_prime_mem hypp occ hmem
      exact ⟨hf, hw, hl, rfl, rfl, rfl, rfl, rfl, rfl, rfl⟩

/-- Witness for C9: the C2-scenario bike deliberates (ignore draw
false) and moves its right edge from 1 to 2; everything else is
unchanged. -/
theorem lateral_update_frame_witness :
    bikeC2sel.occupation.front = bikeC2.occupation.front ∧
    bikeC2sel.occupation.width = bikeC2.occupation.width ∧
    bikeC2sel.occupation.length = bikeC2.occupation.length ∧
    bikeC2sel.forward_speed = bikeC2.forward_speed ∧
    bikeC2sel.forward_speed_max = bikeC2.forward_speed_max ∧
    bikeC2sel.forward_acceleration = bikeC2.forward_acceleration ∧
    bikeC2sel.rightward_speed_max = bikeC2.rightward_speed_max ∧
    bikeC2sel.lateral_ignorance = bikeC2.lateral_ignorance ∧
    bikeC2sel.deceleration_prob = bikeC2.deceleration_prob ∧
    bikeC2sel.y_star_selection_strategy = bikeC2.y_star_selection_strategy :=
  lateral_update_frame dimsC2 bikeC2 0 roadC2 false List.head?
    (fun _ x hx => List.mem_of_mem_head? (Option.mem_def.mpr hx))
    bikeC2sel (by decide)

/-! ### C2 (amended): the Rightmost strategy over all of Y'' -/

/-- **C2 (amended).**  With the Rightmost strategy `select_y_star`
keeps the current occupation when Y'' is empty, and otherwise returns
the element of Y'' with the greatest `right`; the priority preorder of
the specification is not consulted. -/
theorem select_y_star_rightmost_of_y_prime_prime (P : Dims) (b : Bike)
    (road : Road) (self_id : Nat)
    (pick : List RectangleOccupier → Option RectangleOccupier)
    (ypp : List RectangleOccupier)
    (hstrat : b.y_star_selection_strategy = .rightmost)
    (hypp : b.y_prime_prime P road self_id = .ok ypp) :
    (ypp = [] → b.select_y_star P road self_id pick = .ok b.occupation) ∧
    (ypp ≠ [] → ∃ m, b.select_y_star P road self_id pick = .ok m ∧
      m ∈ ypp ∧ ∀ x ∈ ypp, x.right ≤ m.right) := by
  constructor
  · intro hnil
    subst hnil
    unfold Bike.select_y_star
    rw [hypp, except_bind_ok, hstrat]
    rfl
  · intro hne
    obtain ⟨m, hm⟩ := rightmost_selector_of_ne_nil hne
    obtain ⟨hmem, hmax⟩ := rightmost_selector_mem hm
    refine ⟨m, ?_, hmem, hmax⟩
    unfold Bike.select_y_star
    rw [hypp, except_bind_ok, hstrat]
    show pure ((rightmost_y_star_selector ypp).getD b.occupation) = _
    rw [hm]
    rfl

/-- Witness for C2 (amended) on the C2 scenario: Y'' is the three
candidates with rights 0, 1, 2 and the selector returns right 2. -/
theorem select_y_star_rightmost_of_y_prime_prime_witness :
    (([⟨3, 0, 1, 1⟩, ⟨3, 1, 1, 1⟩, ⟨3, 2, 1, 1⟩] :
        List RectangleOccupier) = [] →
      bikeC2.select_y_star dimsC2 roadC2 0 List.head? =
        .ok bikeC2.occupation) ∧
    (([⟨3, 0, 1, 1⟩, ⟨3, 1, 1, 1⟩, ⟨3, 2, 1, 1⟩] :
        List RectangleOccupier) ≠ [] →
      ∃ m, bikeC2.select_y_star dimsC2 roadC2 0 List.head? = .ok m ∧
        m ∈ ([⟨3, 0, 1, 1⟩, ⟨3, 1, 1, 1⟩, ⟨3, 2, 1, 1⟩] :
          List RectangleOccupier) ∧
        ∀ x ∈ ([⟨3, 0, 1, 1⟩, ⟨3, 1, 1, 1⟩, ⟨3, 2, 1, 1⟩] :
          List RectangleOccupier), x.right ≤ m.right) :=
  select_y_star_rightmost_of_y_prime_prime dimsC2 bikeC2 roadC2 0
    List.head? [⟨3, 0, 1, 1⟩, ⟨3, 1, 1, 1⟩, ⟨3, 2, 1, 1⟩]
    (by decide) (by decide)

/-! ### C3 (amended): the direction of the blocking inequality -/

/-- **C3 (amended).**  For every coordinate, a successful
`is_blocking` returns true iff `first_car_back` finds a trailing car
whose potential next speed is strictly LESS THAN the longitudinal
difference `car.front − c.long` (the converse of the specified
"strictly exceeds"). -/
theorem is_blocking_characterization (P : Dims) (road : Road) (c : Coord)
    (maybe_max : Option Nat) (b : Bool)
    (h : road.is_blocking P c maybe_max = .ok b) :
    b = true ↔ ∃ car, road.first_car_back P c maybe_max = .ok (some car) ∧
      car.next_iteration_potential_speed < car.front - c.long := by
  unfold Road.is_blocking at h
  cases hf : road.first_car_back P c maybe_max with
  | error e => rw [hf, except_bind_error] at h; cases h
  | ok r =>
      rw [hf, except_bind_ok] at h
      cases r with
      | none =>
          simp only [except_pure] at h
          have hb : false = b := by injection h
          subst hb
          constructor
          · intro hb; cases hb
          · rintro ⟨car, hcar, _⟩
            simp at hcar
      | some car =>
          simp only [except_pure] at h
          have hb : decide (car.next_iteration_potential_speed <
              car.front - c.long) = b := by injection h
          subst hb
          constructor
          · intro hd
            exact ⟨car, rfl, of_decide_eq_true hd⟩
          · rintro ⟨car2, hcar2, hlt⟩
            have hcc : car = car2 := by
              injection hcar2 with h1
              injection h1
            subst hcc
            exact decide_eq_true hlt

/-- Witness for C3 (amended): on `roadC3w` the scan from (0, 2) wraps
and finds the car at front 15; potential speed 2 < 13, and
`is_blocking` is indeed true. -/
theorem is_blocking_characterization_witness :
    true = true ↔ ∃ car,
      roadC3w.first_car_back dimsC3 ⟨0, 2⟩ none = .ok (some car) ∧
      car.next_iteration_potential_speed <
        car.front - (⟨0, 2⟩ : Coord).long :=
  is_blocking_characterization dimsC3 roadC3w ⟨0, 2⟩ none true (by decide)


/-! ### C4 (amended): the greedy ascending scan -/

theorem intRangeIcc_eq_cons {a b : Int} (h : a ≤ b) :
    intRangeIcc a b = a :: intRangeIcc (a + 1) b := by
  unfold intRangeIcc
  have hn : (b + 1 - a).toNat = (b + 1 - (a + 1)).toNat + 1 := by omega
  rw [hn, List.range_succ_eq_map, List.map_cons]
  refine congrArg₂ List.cons (by simp) ?_
  rw [List.map_map]
  apply List.map_congr_left
  intro i _
  simp only [Function.comp_apply]
  push_cast
  omega

theorem fastest_safe_speed_aux_spec (P : Dims) (cells : Cells) (car : Car)
    (self_id : Nat) (pot : Int) :
    ∀ (n : Nat) (a r : Int), (pot + 1 - a).toNat = n →
    fastest_safe_speed_aux P cells car self_id (intRangeIcc a pot) (a - 1) =
      .ok r →
    a - 1 ≤ r ∧ r ≤ max pot (a - 1) ∧
      (∀ k, a ≤ k → k ≤ r →
        is_collision_for P cells (car.potential_at k).occupied_cells
          (Vehicle.car self_id) = .ok false) ∧
      (r < pot →
        is_collision_for P cells (car.potential_at (r + 1)).occupied_cells
          (Vehicle.car self_id) = .ok true) := by
  intro n
  induction n with
  | zero =>
      intro a r hn h
      have hab : pot < a := by omega
      have hnil : intRangeIcc a pot = [] := by
        unfold intRangeIcc
        rw [hn]
        rfl
      rw [hnil] at h
      simp only [fastest_safe_speed_aux, except_pure] at h
      have hr : a - 1 = r := by injection h
      subst hr
      refine ⟨le_refl _, by omega, ?_, ?_⟩
      · intro k hk1 hk2
        omega
      · intro hlt
        omega
  | succ n ih =>
      intro a r hn h
      have hab : a ≤ pot := by omega
      rw [intRangeIcc_eq_cons hab] at h
      have hstep : fastest_safe_speed_aux P cells car self_id
          (a :: intRangeIcc (a + 1) pot) (a - 1) =
          (is_collision_for P cells (car.potential_at a).occupied_cells
            (Vehicle.car self_id) >>= fun coll =>
            if coll then pure (a - 1)
            else fastest_safe_speed_aux P cells car self_id
              (intRangeIcc (a + 1) pot) a) := rfl
      rw [hstep] at h
      cases hc : is_collision_for P cells (car.potential_at a).occupied_cells
          (Vehicle.car self_id) with
      | error e => rw [hc, except_bind_error] at h; cases h
      | ok coll =>
          rw [hc, except_bind_ok] at h
          cases coll with
          | true =>
              rw [if_pos rfl, except_pure] at h
              have hr : a - 1 = r := by injection h
              subst hr
              refine ⟨le_refl _, by omega, ?_, ?_⟩
              · intro k hk1 hk2
                omega
              · intro _
                have : a - 1 + 1 = a := by omega
                rw [this]
                exact hc
          | false =>
              rw [if_neg (by simp)] at h
              have h2 : fastest_safe_speed_aux P cells car self_id
                  (intRangeIcc (a + 1) pot) (a + 1 - 1) = .ok r := by
                rw [show (a : Int) + 1 - 1 = a by omega]
                exact h
              obtain ⟨ih1, ih2, ih3, ih4⟩ := ih (a + 1) r (by omega) h2
              have hmax1 : max pot (a + 1 - 1) = pot := max_eq_left (by omega)
              have hmax2 : max pot (a - 1) = pot := max_eq_left (by omega)
              refine ⟨by omega, by omega, ?_, ih4⟩
              intro k hk1 hk2
              by_cases hka : k = a
              · subst hka
                exact hc
              · exact ih3 k (by omega) hk2

/-- **C4 (amended).**  `fastest_safe_speed` is the greedy ascending
scan: a successful result r lies in [0, max(s', 0)], every candidate
1..r is collision-free at its own candidate-speed width (the
hypothetical car `potential_at k` carries speed k, hence width(k)),
and if r < s' then candidate r + 1 collides — so the scan stops at the
first collision and yields 0 when even k = 1 collides, rather than the
largest collision-free k overall. -/
theorem fastest_safe_speed_greedy_characterization (P : Dims) (car : Car)
    (road : Road) (self_id : Nat) (r : Int)
    (h : car.fastest_safe_speed P road self_id = .ok r) :
    0 ≤ r ∧ r ≤ max car.next_iteration_potential_speed 0 ∧
    (∀ k, 1 ≤ k → k ≤ r →
      is_collision_for P road.cells (car.potential_at k).occupied_cells
        (Vehicle.car self_id) = .ok false) ∧
    (r < car.next_iteration_potential_speed →
      is_collision_for P road.cells (car.potential_at (r + 1)).occupied_cells
        (Vehicle.car self_id) = .ok true) := by
  unfold Car.fastest_safe_speed at h
  have h0 : fastest_safe_speed_aux P road.cells car self_id
      (intRangeIcc 1 car.next_iteration_potential_speed) ((1 : Int) - 1) =
      .ok r := by
    rw [show (1 : Int) - 1 = 0 by omega]
    exact h
  obtain ⟨h1, h2, h3, h4⟩ := fastest_safe_speed_aux_spec P road.cells car
    self_id car.next_iteration_potential_speed _ 1 r rfl h0
  have hmax : max car.next_iteration_potential_speed ((1 : Int) - 1) =
      max car.next_iteration_potential_speed 0 := by norm_num
  exact ⟨by omega, by rw [hmax] at h2; exact h2, h3, h4⟩

/-- Witness for C4 (amended): `carC3` alone on its road accelerates to
its full potential speed 2 (both candidates are collision-free). -/
theorem fastest_safe_speed_greedy_characterization_witness :
    0 ≤ (2 : Int) ∧
    (2 : Int) ≤ max carC3.next_iteration_potential_speed 0 ∧
    (∀ k, 1 ≤ k → k ≤ (2 : Int) →
      is_collision_for dimsC3 roadC3.cells
        (carC3.potential_at k).occupied_cells (Vehicle.car 0) =
        .ok false) ∧
    ((2 : Int) < carC3.next_iteration_potential_speed →
      is_collision_for dimsC3 roadC3.cells
        (carC3.potential_at (2 + 1)).occupied_cells (Vehicle.car 0) =
        .ok true) :=
  fastest_safe_speed_greedy_characterization dimsC3 carC3 roadC3 0 2
    (by decide)

/-! ### C5: the bike forward update -/

/-- **C5.**  A successful bike forward update computes
`s_next = min(s + a, s_max, g)` where g is the road-level front gap
(the minimum of the column front gaps over the occupation's front-edge
cells, per the hypotheses), decrements it (floored at 0) exactly when
the deceleration draw succeeds, advances the front by `s_next` modulo
L, and leaves `right` (and the dimensions) unchanged. -/
theorem bike_forward_update_formula (P : Dims) (b : Bike) (road : Road)
    (decel_draw : Bool) (gaps : List Nat) (g : Nat)
    (hgaps : mapExcept (fun c => cells_front_gap P road.cells c none)
      b.occupation.front_cells = .ok gaps)
    (hmin : gaps.min? = some g) (hL : P.L ≠ 0) :
    b.forward_update P road decel_draw = .ok { b with
      occupation := { b.occupation with
        front := (b.occupation.front +
          (if decel_draw
            then max (min (min (b.forward_speed + b.forward_acceleration)
              b.forward_speed_max) ((g : Nat) : Int) - 1) 0
            else min (min (b.forward_speed + b.forward_acceleration)
              b.forward_speed_max) ((g : Nat) : Int))).emod (P.L : Int) },
      forward_speed := if decel_draw
        then max (min (min (b.forward_speed + b.forward_acceleration)
          b.forward_speed_max) ((g : Nat) : Int) - 1) 0
        else min (min (b.forward_speed + b.forward_acceleration)
          b.forward_speed_max) ((g : Nat) : Int) } := by
  unfold Bike.forward_update Road.front_gap
  rw [hgaps, except_bind_ok, except_pure, except_bind_ok, hmin]
  simp only [except_bind_ok, except_pure]
  rw [if_neg hL]


/-! ### C6: front-gap scan characterization and the lone occupier -/

theorem find?_first {α : Type} {p : α → Bool} :
    ∀ {l : List α} {x : α}, l.find? p = some x →
      ∃ i : Nat, l.get? i = some x ∧ p x = true ∧
        ∀ j < i, ∀ y, l.get? j = some y → p y = false := by
  intro l
  induction l with
  | nil => intro x h; cases h
  | cons a as ih =>
      intro x h
      cases hp : p a with
      | true =>
          rw [List.find?_cons_of_pos _ hp] at h
          injection h with h
          subst h
          exact ⟨0, rfl, hp, fun j hj y hy => absurd hj (by omega)⟩
      | false =>
          rw [List.find?_cons_of_neg _ (by simp [hp])] at h
          obtain ⟨i, hget, hx, hbefore⟩ := ih h
          refine ⟨i + 1, hget, hx, ?_⟩
          intro j hj y hy
          cases j with
          | zero =>
              simp only [List.get?] at hy
              injection hy with hy
              subst hy
              exact hp
          | succ m => exact hbefore m (by omega) y hy

theorem find?_eq_of_first {α : Type} {p : α → Bool} :
    ∀ {l : List α} {i : Nat} {x : α},
      l.get? i = some x → p x = true →
      (∀ j < i, ∀ y, l.get? j = some y → p y = false) →
      l.find? p = some x := by
  intro l
  induction l with
  | nil => intro i x h; cases i <;> cases h
  | cons a as ih =>
      intro i x hget hp hbefore
      cases i with
      | zero =>
          simp only [List.get?] at hget
          injection hget with hget
          subst hget
          exact List.find?_cons_of_pos _ hp
      | succ n =>
          have hpa : p a = false := hbefore 0 (by omega) a rfl
          rw [List.find?_cons_of_neg _ (by simp [hpa])]
          exact ih hget hp (fun j hj y hy => hbefore (j + 1) (by omega) y hy)

theorem ds_get {ms : Nat} {j : Nat} {y : Int}
    (h : ((List.range (ms - 1)).map
      (fun i : Nat => (1 : Int) + (i : Int))).get? j = some y) :
    j < ms - 1 ∧ y = 1 + (j : Int) := by
  rw [List.get?_map] at h
  cases hr : (List.range (ms - 1)).get? j with
  | none => rw [hr] at h; cases h
  | some m =>
      rw [hr] at h
      injection h with h
      have hj : j < ms - 1 := by
        have hlen := (List.get?_eq_some.mp hr).1
        simpa using hlen
      have hm : m = j := by
        rw [List.get?_range hj] at hr
        injection hr with hr
        omega
      subst hm
      exact ⟨hj, h.symm⟩


theorem ds_get_of {ms j : Nat} (h : j < ms - 1) :
    ((List.range (ms - 1)).map
      (fun i : Nat => (1 : Int) + (i : Int))).get? j = some (1 + (j : Int)) := by
  rw [List.get?_map, List.get?_range h]
  rfl

theorem ds_mem_of {ms : Nat} {d : Int} (h1 : 1 ≤ d) (h2 : d < (ms : Int)) :
    d ∈ (List.range (ms - 1)).map (fun i : Nat => (1 : Int) + (i : Int)) := by
  rw [List.mem_map]
  refine ⟨(d - 1).toNat, ?_, by omega⟩
  rw [List.mem_range]
  omega

theorem emod_shift (a d L : Int) : (a.emod L + d).emod L = (a + d).emod L := by
  show (a % L + d) % L = (a + d) % L
  conv_rhs => rw [Int.add_emod]
  conv_lhs => rw [Int.add_emod, Int.emod_emod_of_dvd _ dvd_rfl]

theorem mapExcept_const {α β : Type} {f : α → Except String β}
    {l : List α} {k : β} (h : ∀ x ∈ l, f x = .ok k) :
    mapExcept f l = .ok (l.map (fun _ => k)) := by
  induction l with
  | nil => rfl
  | cons a as ih =>
      unfold mapExcept
      rw [h a (List.mem_cons_self _ _), except_bind_ok,
        ih (fun x hx => h x (List.mem_cons_of_mem _ hx)), except_bind_ok,
        except_pure]
      rfl

theorem foldl_min_const {α : Type} (k : Nat) :
    ∀ l : List α, (l.map (fun _ => k)).foldl min k = k
  | [] => rfl
  | b :: bs => by
      rw [List.map_cons]
      show ((bs.map (fun _ => k)).foldl min (min k k)) = k
      rw [min_self]
      exact foldl_min_const k bs

theorem min?_map_const {α : Type} {l : List α} {k : Nat} (h : l ≠ []) :
    (l.map (fun _ => k)).min? = some k := by
  cases l with
  | nil => cases h rfl
  | cons a as =>
      rw [List.map_cons]
      show some ((as.map (fun _ => k)).foldl min k) = some k
      rw [foldl_min_const]

/-- Part 1 of C6: the scan semantics of `RoadCells::front_gap`.  A
successful result g either is `max_search` with every scanned cell
empty, or counts the empty cells strictly ahead up to the first
occupied one. -/
theorem cells_front_gap_spec (P : Dims) (cells : Cells) (c : Coord)
    (maybe_max : Option Nat) (g : Nat)
    (h : cells_front_gap P cells c maybe_max = .ok g) :
    ∃ vc, validate_coord P c = .ok vc ∧
      ((g = maybe_max.getD P.L ∧
        ∀ d : Int, 1 ≤ d → d < ((maybe_max.getD P.L : Nat) : Int) →
          cells ⟨vc.lat, (vc.long + d).emod (P.L : Int)⟩ = none) ∨
       ((g : Int) + 1 < ((maybe_max.getD P.L : Nat) : Int) ∧
        (∀ d : Int, 1 ≤ d → d ≤ (g : Int) →
          cells ⟨vc.lat, (vc.long + d).emod (P.L : Int)⟩ = none) ∧
        (cells ⟨vc.lat,
          (vc.long + ((g : Int) + 1)).emod (P.L : Int)⟩).isSome = true)) := by
  unfold cells_front_gap at h
  cases hv : validate_coord P c with
  | error e => rw [hv, except_bind_error] at h; cases h
  | ok vc =>
      rw [hv, except_bind_ok] at h
      simp only [] at h
      refine ⟨vc, rfl, ?_⟩
      cases hfind : ((List.range (maybe_max.getD P.L - 1)).map
          (fun i : Nat => (1 : Int) + (i : Int))).find?
          (fun d => (cells ⟨vc.lat,
            (vc.long + d).emod ((P.L : Nat) : Int)⟩).isSome) with
      | none =>
          rw [hfind] at h
          simp only [except_pure] at h
          have hg : maybe_max.getD P.L = g := by injection h
          left
          refine ⟨hg.symm, ?_⟩
          intro d hd1 hd2
          have hmem := @ds_mem_of (maybe_max.getD P.L) d hd1 hd2
          have := List.find?_eq_none.mp hfind d hmem
          simpa [Option.not_isSome_iff_eq_none] using this
      | some d =>
          rw [hfind] at h
          obtain ⟨i, hget, hp, hbefore⟩ := find?_first hfind
          obtain ⟨hi, hd⟩ := ds_get hget
          subst hd
          simp only [except_pure] at h
          have hg : (if vc.long + (1 + (i : Int)) - (vc.long + 1) < 0
              then vc.long + (1 + (i : Int)) - (vc.long + 1) + (P.L : Int)
              else vc.long + (1 + (i : Int)) - (vc.long + 1)).toNat = g := by
            injection h
          rw [if_neg (by omega)] at hg
          have hgi : g = i := by omega
          right
          refine ⟨by omega, ?_, ?_⟩
          · intro e he1 he2
            have hj : (e - 1).toNat < i := by omega
            have := hbefore (e - 1).toNat hj (1 + ((e - 1).toNat : Int))
              (ds_get_of (by omega))
            have he : (1 : Int) + ((e - 1).toNat : Int) = e := by omega
            rw [he] at this
            simpa [Option.not_isSome_iff_eq_none] using this
          · have he : (g : Int) + 1 = 1 + (i : Int) := by omega
            rw [he]
            exact hp

/-- Part 2 of C6: the road-level front gap of a lone occupier of
length ≥ 2 on an otherwise empty ring is `L − length`. -/
theorem front_gap_lone_occupier (P : Dims) (road : Road)
    (occ : RectangleOccupier) (hL : 0 < P.L) (hlen2 : 2 ≤ occ.length)
    (hlenL : occ.length ≤ P.L) (hw : 1 ≤ occ.width)
    (hsatr : isizeMin ≤ occ.right - (occ.width : Int))
    (hsatf : isizeMin ≤ occ.front - (occ.length : Int))
    (hgrid : onGridList P occ.occupied_cells)
    (hlone : ∀ x, (road.cells x).isSome ↔
      x ∈ cellsV P occ.occupied_cells) :
    road.front_gap P occ = .ok (some (P.L - occ.length)) := by
  obtain ⟨-, -, hmemc⟩ := rectangle_occupation_characterization occ.front
    occ.right occ.width occ.length hw (by omega) hsatr hsatf
  have hcell : ∀ lat : Int, occ.right - (occ.width : Int) + 1 ≤ lat →
      lat ≤ occ.right →
      cells_front_gap P road.cells ⟨lat, occ.front⟩ none =
        .ok (P.L - occ.length) := by
    intro lat hlat1 hlat2
    have hmem_fc : (⟨lat, occ.front⟩ : Coord) ∈ occ.occupied_cells := by
      apply (hmemc _).mpr
      refine ⟨hlat1, hlat2, ?_, ?_⟩
      · show occ.front - (occ.length : Int) + 1 ≤ occ.front
        omega
      · show occ.front ≤ occ.front
        omega
    obtain ⟨hlat0, hlatW⟩ := hgrid _ hmem_fc
    have hv : validate_coord P ⟨lat, occ.front⟩ =
        .ok ⟨lat, occ.front.emod (P.L : Int)⟩ :=
      validate_coord_of hlat0 hlatW hL
    have hocc_iff : ∀ d : Int, 1 ≤ d → d < (P.L : Int) →
        ((road.cells ⟨lat, (occ.front.emod (P.L : Int) + d).emod
          (P.L : Int)⟩).isSome ↔
          (P.L : Int) - (occ.length : Int) + 1 ≤ d) := by
      intro d hd1 hd2
      rw [hlone, emod_shift]
      constructor
      · intro hmemV
        obtain ⟨craw, hcraw, hnorm⟩ := List.mem_map.mp hmemV
        obtain ⟨hc1, hc2, hc3, hc4⟩ := (hmemc craw).mp hcraw
        have hlongeq : craw.long.emod (P.L : Int) =
            (occ.front + d).emod (P.L : Int) := congrArg Coord.long hnorm
        have hdvd : (P.L : Int) ∣ (occ.front + d - craw.long) := by
          rw [Int.dvd_iff_emod_eq_zero]
          have := Int.emod_emod_of_dvd (occ.front + d - craw.long)
            (dvd_refl (P.L : Int))
          rw [Int.sub_emod]
          show ((occ.front + d) % (P.L : Int) - craw.long % (P.L : Int)) %
            (P.L : Int) = 0
          rw [show (occ.front + d) % (P.L : Int) = craw.long % (P.L : Int)
            from hlongeq.symm]
          simp
        obtain ⟨k, hk⟩ := hdvd
        have hk1 : k = 1 := by
          have hlow : 0 < (P.L : Int) * k := by rw [← hk]; omega
          have hhigh : (P.L : Int) * k < (P.L : Int) * 2 := by rw [← hk]; omega
          have hkpos : 0 < k := by
            rcases lt_trichotomy k 0 with hneg | hzero | hpos
            · have : (P.L : Int) * k < 0 :=
                mul_neg_of_pos_of_neg (by exact_mod_cast hL) hneg
              linarith
            · rw [hzero, mul_zero] at hlow; omega
            · exact hpos
          have hk2 : k < 2 := lt_of_mul_lt_mul_left hhigh (by positivity)
          omega
        rw [hk1, mul_one] at hk
        omega
      · intro hdge
        refine List.mem_map.mpr
          ⟨⟨lat, occ.front - ((P.L : Int) - d)⟩, ?_, ?_⟩
        · apply (hmemc _).mpr
          refine ⟨hlat1, hlat2, ?_, ?_⟩
          · show occ.front - (occ.length : Int) + 1 ≤
              occ.front - ((P.L : Int) - d)
            omega
          · show occ.front - ((P.L : Int) - d) ≤ occ.front
            omega
        · have hrw : (occ.front - ((P.L : Int) - d)) =
              occ.front + d + (P.L : Int) * (-1) := by ring
          have hm := Int.add_mul_emod_self_left (a := occ.front + d)
            (b := (P.L : Int)) (c := (-1 : Int))
          show (⟨lat, (occ.front - ((P.L : Int) - d)).emod (P.L : Int)⟩ :
            Coord) = _
          rw [hrw]
          exact congrArg (fun z => (⟨lat, z⟩ : Coord)) hm
    unfold cells_front_gap
    rw [hv, except_bind_ok]
    simp only []
    have hfind : ((List.range (Option.getD none P.L - 1)).map
        (fun i : Nat => (1 : Int) + (i : Int))).find?
        (fun d => (road.cells ⟨lat,
          (occ.front.emod (P.L : Int) + d).emod ((P.L : Nat) : Int)⟩).isSome) =
        some (1 + ((P.L - occ.length : Nat) : Int)) := by
      apply find?_eq_of_first (i := P.L - occ.length)
      · exact ds_get_of (by simp; omega)
      · have hd0 : (1 : Int) + ((P.L - occ.length : Nat) : Int) =
            (P.L : Int) - (occ.length : Int) + 1 := by omega
        rw [hd0]
        exact (hocc_iff _ (by omega) (by omega)).mpr (le_refl _)
      · intro j hj y hy
        simp only [Option.getD] at hy
        obtain ⟨hjlt, hyeq⟩ := ds_get hy
        subst hyeq
        have h1 : (1 : Int) + (j : Int) < (P.L : Int) := by omega
        have hnot := (hocc_iff (1 + (j : Int)) (by omega) h1)
        have : ¬((P.L : Int) - (occ.length : Int) + 1 ≤ 1 + (j : Int)) := by
          omega
        rw [Bool.eq_false_iff]
        intro hsome
        exact this (hnot.mp (by simpa using hsome))
    simp only [Option.getD] at hfind ⊢
    rw [hfind]
    show pure (if occ.front.emod (P.L : Int) +
          (1 + ((P.L - occ.length : Nat) : Int)) -
          (occ.front.emod (P.L : Int) + 1) < 0
        then occ.front.emod (P.L : Int) +
          (1 + ((P.L - occ.length : Nat) : Int)) -
          (occ.front.emod (P.L : Int) + 1) + (P.L : Int)
        else occ.front.emod (P.L : Int) +
          (1 + ((P.L - occ.length : Nat) : Int)) -
          (occ.front.emod (P.L : Int) + 1)).toNat =
      Except.ok (P.L - occ.length)
    rw [if_neg (by omega)]
    simp only [except_pure]
    congr 1
    omega
  have hfc : occ.front_cells = occ.width_iterator.map
      (fun lat => (⟨lat, occ.front⟩ : Coord)) := rfl
  have hleft : occ.left = occ.right - (occ.width : Int) + 1 := by
    unfold RectangleOccupier.left
    rw [saturating_sub_unsigned_of_le hsatr]
  have hconst : ∀ c ∈ occ.front_cells,
      cells_front_gap P road.cells c none = .ok (P.L - occ.length) := by
    intro c hc
    rw [hfc] at hc
    obtain ⟨lat, hlatmem, rfl⟩ := List.mem_map.mp hc
    rw [RectangleOccupier.width_iterator, hleft] at hlatmem
    obtain ⟨hl1, hl2⟩ := mem_intRangeIcc.mp hlatmem
    exact hcell lat hl1 hl2
  have hmapr := mapExcept_const hconst
  have hne : occ.front_cells ≠ [] := by
    have hlenfc : occ.front_cells.length = occ.width := by
      rw [hfc, List.length_map, RectangleOccupier.width_iterator, hleft,
        length_intRangeIcc]
      omega
    intro hnil
    rw [hnil] at hlenfc
    simp at hlenfc
    omega
  unfold Road.front_gap
  rw [hmapr, except_bind_ok, min?_map_const hne]
  rfl


/-- **C6 (amended).**  First conjunct: `front_gap(c, max)` counts the
empty cells strictly ahead of c in its lat column — a successful
result g is either `max_search` with every scanned cell empty, or the
number of empty cells before the first occupied one (the raw scan
coordinate `vc.long + d` never lies before the start, so the add-L
wrap branch is dead).  Second conjunct: the road front gap of a lone
rectangular occupier on an otherwise empty ring is `L − length` for
length ≥ 2; a length-1 occupier never finds its own cell and gets
`max = L` instead. -/
theorem front_gap_characterization_and_lone_occupier :
    (∀ (P : Dims) (cells : Cells) (c : Coord) (maybe_max : Option Nat)
      (g : Nat),
      cells_front_gap P cells c maybe_max = .ok g →
      ∃ vc, validate_coord P c = .ok vc ∧
        ((g = maybe_max.getD P.L ∧
          ∀ d : Int, 1 ≤ d → d < ((maybe_max.getD P.L : Nat) : Int) →
            cells ⟨vc.lat, (vc.long + d).emod (P.L : Int)⟩ = none) ∨
         ((g : Int) + 1 < ((maybe_max.getD P.L : Nat) : Int) ∧
          (∀ d : Int, 1 ≤ d → d ≤ (g : Int) →
            cells ⟨vc.lat, (vc.long + d).emod (P.L : Int)⟩ = none) ∧
          (cells ⟨vc.lat,
            (vc.long + ((g : Int) + 1)).emod (P.L : Int)⟩).isSome = true))) ∧
    (∀ (P : Dims) (road : Road) (occ : RectangleOccupier),
      0 < P.L → 2 ≤ occ.length → occ.length ≤ P.L → 1 ≤ occ.width →
      isizeMin ≤ occ.right - (occ.width : Int) →
      isizeMin ≤ occ.front - (occ.length : Int) →
      onGridList P occ.occupied_cells →
      (∀ x, (road.cells x).isSome ↔ x ∈ cellsV P occ.occupied_cells) →
      road.front_gap P occ = .ok (some (P.L - occ.length))) :=
  ⟨cells_front_gap_spec, front_gap_lone_occupier⟩

/-- Witness for C6: the scan from (4, 16) on the lone 2×2 occupier
road returns 18, and the road-level gap is `L − length = 18`. -/
theorem front_gap_characterization_and_lone_occupier_witness :
    (∃ vc, validate_coord dimsC3 ⟨4, 16⟩ = .ok vc ∧
      ((18 = (none : Option Nat).getD dimsC3.L ∧
        ∀ d : Int, 1 ≤ d → d < (((none : Option Nat).getD dimsC3.L : Nat) : Int) →
          roadC6w.cells ⟨vc.lat, (vc.long + d).emod (dimsC3.L : Int)⟩ = none) ∨
       (((18 : Nat) : Int) + 1 < (((none : Option Nat).getD dimsC3.L : Nat) : Int) ∧
        (∀ d : Int, 1 ≤ d → d ≤ ((18 : Nat) : Int) →
          roadC6w.cells ⟨vc.lat, (vc.long + d).emod (dimsC3.L : Int)⟩ = none) ∧
        (roadC6w.cells ⟨vc.lat,
          (vc.long + (((18 : Nat) : Int) + 1)).emod (dimsC3.L : Int)⟩).isSome =
          true))) ∧
    roadC6w.front_gap dimsC3 occC6w = .ok (some (dimsC3.L - occC6w.length)) :=
  ⟨front_gap_characterization_and_lone_occupier.1 dimsC3 roadC6w.cells
      ⟨4, 16⟩ none 18 (by decide),
   front_gap_characterization_and_lone_occupier.2 dimsC3 roadC6w occC6w
      (by decide) (by decide) (by decide) (by decide)
      (by decide) (by decide) (by unfold onGridList; decide)
      (fun x => by
        show (if x ∈ cellsV dimsC3 occC6w.occupied_cells
            then some (Vehicle.bike 0) else none).isSome = true ↔
          x ∈ cellsV dimsC3 occC6w.occupied_cells
        by_cases hx : x ∈ cellsV dimsC3 occC6w.occupied_cells
        · simp [hx]
        · simp [hx])⟩

/-- Witness for C5: the 2×1 bike alone on its ring accelerates from
speed 2 to 3 (the gap 20 does not bind) and advances to front 6. -/
theorem bike_forward_update_formula_witness :
    bikeC5.forward_update dimsC3 roadC6 false = .ok { bikeC5 with
      occupation := { bikeC5.occupation with
        front := (bikeC5.occupation.front +
          (if false
            then max (min (min (bikeC5.forward_speed +
              bikeC5.forward_acceleration) bikeC5.forward_speed_max)
              ((20 : Nat) : Int) - 1) 0
            else min (min (bikeC5.forward_speed +
              bikeC5.forward_acceleration) bikeC5.forward_speed_max)
              ((20 : Nat) : Int))).emod (dimsC3.L : Int) },
      forward_speed := if false
        then max (min (min (bikeC5.forward_speed +
          bikeC5.forward_acceleration) bikeC5.forward_speed_max)
          ((20 : Nat) : Int) - 1) 0
        else min (min (bikeC5.forward_speed +
          bikeC5.forward_acceleration) bikeC5.forward_speed_max)
          ((20 : Nat) : Int) } :=
  bike_forward_update_formula dimsC3 bikeC5 roadC6 false [20, 20] 20
    (by decide) (by decide) (by decide)

/-! ### Collision-query lemmas and enumeration helpers (tick invariants) -/

theorem collisions_for_ok {P : Dims} {cells : Cells} {occ : List Coord}
    {l : List Vehicle} (h : collisions_for P cells occ = .ok l) :
    l = (cellsV P occ).filterMap cells ∧ onGridList P occ := by
  unfold collisions_for at h
  cases hv : mapExcept (validate_coord P) occ with
  | error e => rw [hv, except_bind_error] at h; cases h
  | ok vcs =>
      rw [hv, except_bind_ok, except_pure] at h
      obtain ⟨rfl, hg⟩ := mapExcept_validate_ok hv
      have heq : (cellsV P occ).filterMap cells = l := by injection h
      exact ⟨heq.symm, hg⟩

theorem collisions_for_of {P : Dims} {occ : List Coord} (cells : Cells)
    (hg : onGridList P occ) (hL : 0 < P.L) :
    collisions_for P cells occ = .ok ((cellsV P occ).filterMap cells) := by
  unfold collisions_for
  rw [mapExcept_validate_of hg hL, except_bind_ok, except_pure]

theorem is_collision_for_false {P : Dims} {cells : Cells} {occ : List Coord}
    {v : Vehicle} (h : is_collision_for P cells occ v = .ok false) :
    onGridList P occ ∧
    ∀ c ∈ cellsV P occ, ∀ w, cells c = some w → w = v := by
  unfold is_collision_for at h
  obtain ⟨found, hfound, hany⟩ := except_map_eq_ok h
  obtain ⟨rfl, hg⟩ := collisions_for_ok hfound
  refine ⟨hg, ?_⟩
  intro c hc w hw
  have hmem : w ∈ (cellsV P occ).filterMap cells :=
    List.mem_filterMap.mpr ⟨c, hc, hw⟩
  by_contra hne
  have htrue : ((cellsV P occ).filterMap cells).any
      (fun fv => decide (fv ≠ v)) = true :=
    List.any_eq_true.mpr ⟨w, hmem, by simp [hne]⟩
  cases hany.trans htrue

theorem is_collision_for_of_false {P : Dims} {cells : Cells}
    {occ : List Coord} {v : Vehicle} (hg : onGridList P occ) (hL : 0 < P.L)
    (h : ∀ c ∈ cellsV P occ, ∀ w, cells c = some w → w = v) :
    is_collision_for P cells occ v = .ok false := by
  unfold is_collision_for
  rw [collisions_for_of cells hg hL, except_map_ok]
  have : ((cellsV P occ).filterMap cells).any
      (fun fv => decide (fv ≠ v)) = false := by
    by_contra hne
    obtain ⟨w, hwmem, hwne⟩ :=
      List.any_eq_true.mp (Bool.of_not_eq_false hne)
    obtain ⟨c, hc, hcw⟩ := List.mem_filterMap.mp hwmem
    have hwv : w = v := h c hc w hcw
    subst hwv
    simp at hwne
  rw [this]

theorem enumFrom_get? {α : Type} :
    ∀ (n : Nat) (l : List α) (i : Nat),
      (List.enumFrom n l).get? i = (l.get? i).map (fun x => (n + i, x))
  | _, [], i => by simp
  | _, _ :: _, 0 => by simp
  | n, a :: as, i + 1 => by
      show (List.enumFrom (n + 1) as).get? i = _
      rw [enumFrom_get? (n + 1) as i]
      have harith : n + 1 + i = n + (i + 1) := by omega
      rw [harith]
      rfl

theorem enum_get? {α : Type} (l : List α) (i : Nat) :
    l.enum.get? i = (l.get? i).map (fun x => (i, x)) := by
  have h := enumFrom_get? 0 l i
  simp only [Nat.zero_add] at h
  exact h

theorem mem_enum_get? {α : Type} {l : List α} {p : Nat × α}
    (h : p ∈ l.enum) : l.get? p.1 = some p.2 := by
  obtain ⟨i, hi⟩ := List.get?_of_mem h
  rw [enum_get? l i] at hi
  cases hx : l.get? i with
  | none => rw [hx] at hi; cases hi
  | some x =>
      rw [hx] at hi
      have hp : (i, x) = p := by
        injection hi
      subst hp
      exact hx

theorem enum_mem_of_get? {α : Type} {l : List α} {i : Nat} {x : α}
    (h : l.get? i = some x) : (i, x) ∈ l.enum := by
  have hi : l.enum.get? i = some (i, x) := by rw [enum_get?, h]; rfl
  exact List.get?_mem hi

theorem cellsV_flatMap {P : Dims} {α : Type} (f : α → List Coord)
    (l : List α) :
    cellsV P (l.flatMap f) = l.flatMap (fun a => cellsV P (f a)) := by
  induction l with
  | nil => rfl
  | cons a as ih =>
      simp only [List.flatMap_cons, cellsV, List.map_append] at *
      rw [ih]

theorem AcceptInv_congr {P : Dims} {preCells : Cells}
    {origBikes : List Bike} {cars : List Car} {S T : Nat → Prop}
    {st : Cells × List Bike} (hS : ∀ i, S i ↔ T i)
    (h : AcceptInv P preCells origBikes cars S st) :
    AcceptInv P preCells origBikes cars T st := by
  obtain ⟨h1, h2, h3, h4⟩ := h
  refine ⟨h1, fun i hi => h2 i (fun hSi => hi ((hS i).mp hSi)),
    fun i hi => h3 i ((hS i).mpr hi), ?_⟩
  intro c w
  rw [h4 c w]
  cases w with
  | bike i => exact and_congr_left' (hS i)
  | car j => exact Iff.rfl

theorem lateral_update_shape {P : Dims} {b : Bike} {self_id : Nat}
    {road : Road} {ignore_draw : Bool}
    {pick : List RectangleOccupier → Option RectangleOccupier}
    (hpick : ∀ l x, pick l = some x → x ∈ l) {nb : Bike}
    (h : b.lateral_update P self_id road ignore_draw pick = .ok nb) :
    bike_frame_eq b nb ∧
    (nb.occupation = b.occupation ∨
      (road_contains_occupier P nb.occupied_cells = true ∧
       onGridList P nb.occupied_cells ∧
       ∀ c ∈ nb.cellsV P, ∀ w, road.cells c = some w →
         w = Vehicle.bike self_id)) := by
  unfold Bike.lateral_update at h
  by_cases hig : ignore_draw
  · rw [if_pos hig, except_pure] at h
    have hbn : b = nb := by injection h
    subst hbn
    exact ⟨⟨rfl, rfl, rfl, rfl, rfl, rfl, rfl, rfl, rfl, rfl⟩, Or.inl rfl⟩
  · rw [if_neg hig] at h
    obtain ⟨occ, hsel, hnb⟩ := except_map_eq_ok h
    subst hnb
    rcases select_y_star_cases hpick hsel with heq | ⟨ypp, hypp, hmem⟩
    · subst heq
      exact ⟨⟨rfl, rfl, rfl, rfl, rfl, rfl, rfl, rfl, rfl, rfl⟩, Or.inl rfl⟩
    · obtain ⟨hf, hw, hl, hroad, hcoll⟩ := bike_y_prime_prime_mem hypp occ hmem
      obtain ⟨hg, havoid⟩ := is_collision_for_false hcoll
      exact ⟨⟨hf, hw, hl, rfl, rfl, rfl, rfl, rfl, rfl, rfl⟩,
        Or.inr ⟨hroad, hg, havoid⟩⟩

theorem insert_validated_checked_spec {P : Dims} {mk : Nat → Vehicle}
    {l : List (Coord × Nat)} :
    ∀ {cells cells2 : Cells},
    insert_validated_checked P mk cells l = .ok cells2 →
    (∀ p ∈ l, 0 ≤ p.1.lat ∧ p.1.lat < (P.total_width : Int) ∧ 0 < P.L) ∧
    List.Pairwise (fun p q : Coord × Nat =>
      (⟨p.1.lat, p.1.long.emod (P.L : Int)⟩ : Coord) ≠
        ⟨q.1.lat, q.1.long.emod (P.L : Int)⟩) l ∧
    (∀ p ∈ l, cells ⟨p.1.lat, p.1.long.emod (P.L : Int)⟩ = none) ∧
    (∀ x, cells2 x =
      match l.find? (fun p =>
          decide ((⟨p.1.lat, p.1.long.emod (P.L : Int)⟩ : Coord) = x)) with
      | some p => some (mk p.2)
      | none => cells x) := by
  induction l with
  | nil =>
      intro cells cells2 h
      unfold insert_validated_checked at h
      rw [except_pure] at h
      have hc : cells = cells2 := by injection h
      subst hc
      exact ⟨by simp, List.Pairwise.nil, by simp, fun x => rfl⟩
  | cons p rest ih =>
      intro cells cells2 h
      obtain ⟨c, id⟩ := p
      unfold insert_validated_checked at h
      cases hv : validate_coord P c with
      | error e => rw [hv, except_bind_error] at h; cases h
      | ok vc =>
          rw [hv, except_bind_ok] at h
          obtain ⟨hb1, hb2, hbL, rfl⟩ := validate_coord_ok hv
          cases hc0 : cells ⟨c.lat, c.long.emod (P.L : Int)⟩ with
          | some w => rw [hc0] at h; cases h
          | none =>
              rw [hc0] at h
              obtain ⟨ihb, ihpw, ihnone, ihform⟩ := ih h
              have hqn : ∀ q ∈ rest,
                  (⟨q.1.lat, q.1.long.emod (P.L : Int)⟩ : Coord) ≠
                    ⟨c.lat, c.long.emod (P.L : Int)⟩ ∧
                  cells ⟨q.1.lat, q.1.long.emod (P.L : Int)⟩ = none := by
                intro q hq
                have hn := ihnone q hq
                by_cases heq : (⟨q.1.lat, q.1.long.emod (P.L : Int)⟩ : Coord) =
                    ⟨c.lat, c.long.emod (P.L : Int)⟩
                · rw [if_pos heq] at hn; cases hn
                · rw [if_neg heq] at hn; exact ⟨heq, hn⟩
              refine ⟨?_, ?_, ?_, ?_⟩
              · intro q hq
                rcases List.mem_cons.mp hq with rfl | hq2
                · exact ⟨hb1, hb2, hbL⟩
                · exact ihb q hq2
              · exact List.pairwise_cons.mpr
                  ⟨fun q hq => (hqn q hq).1.symm, ihpw⟩
              · intro q hq
                rcases List.mem_cons.mp hq with rfl | hq2
                · exact hc0
                · exact (hqn q hq2).2
              · intro x
                have hthis := ihform x
                split at hthis
                next p hfind =>
                  by_cases hx : (⟨c.lat, c.long.emod (P.L : Int)⟩ : Coord) = x
                  · exfalso
                    have hp1 := @List.find?_some _ (fun q : Coord × Nat =>
                      decide ((⟨q.1.lat, q.1.long.emod (P.L : Int)⟩ :
                        Coord) = x)) p rest hfind
                    have h1 : (⟨p.1.lat, p.1.long.emod (P.L : Int)⟩ : Coord)
                        = x := of_decide_eq_true hp1
                    exact (hqn p (List.mem_of_find?_eq_some hfind)).1
                      (h1.trans hx.symm)
                  · have hpf : decide ((⟨c.lat, c.long.emod (P.L : Int)⟩ :
                        Coord) = x) = false := decide_eq_false hx
                    rw [List.find?_cons, hpf, hfind]
                    exact hthis
                next hfind =>
                  by_cases hx : (⟨c.lat, c.long.emod (P.L : Int)⟩ : Coord) = x
                  · have hpt : decide ((⟨c.lat, c.long.emod (P.L : Int)⟩ :
                        Coord) = x) = true := decide_eq_true hx
                    rw [List.find?_cons, hpt, hthis, if_pos hx.symm]
                  · have hpf : decide ((⟨c.lat, c.long.emod (P.L : Int)⟩ :
                        Coord) = x) = false := decide_eq_false hx
                    rw [List.find?_cons, hpf, hfind, hthis,
                      if_neg (fun hcc => hx hcc.symm)]

theorem insert_validated_checked_of {P : Dims} {mk : Nat → Vehicle}
    {l : List (Coord × Nat)} :
    ∀ {cells : Cells},
    (∀ p ∈ l, 0 ≤ p.1.lat ∧ p.1.lat < (P.total_width : Int)) → 0 < P.L →
    List.Pairwise (fun p q : Coord × Nat =>
      (⟨p.1.lat, p.1.long.emod (P.L : Int)⟩ : Coord) ≠
        ⟨q.1.lat, q.1.long.emod (P.L : Int)⟩) l →
    (∀ p ∈ l, cells ⟨p.1.lat, p.1.long.emod (P.L : Int)⟩ = none) →
    ∃ cells2, insert_validated_checked P mk cells l = .ok cells2 := by
  induction l with
  | nil => exact fun _ _ _ _ => ⟨_, rfl⟩
  | cons p rest ih =>
      intro cells hb hL hpw hnone
      obtain ⟨c, id⟩ := p
      have hb1 : 0 ≤ c.lat := (hb (c, id) (List.mem_cons_self _ _)).1
      have hb2 : c.lat < (P.total_width : Int) :=
        (hb (c, id) (List.mem_cons_self _ _)).2
      have hhead : cells ⟨c.lat, c.long.emod (P.L : Int)⟩ = none :=
        hnone (c, id) (List.mem_cons_self _ _)
      obtain ⟨hhd, hpw2⟩ := List.pairwise_cons.mp hpw
      obtain ⟨cells2, hc2⟩ :=
        @ih (fun x => if x = (⟨c.lat, c.long.emod (P.L : Int)⟩ : Coord)
            then some (mk id) else cells x)
          (fun q hq => hb q (List.mem_cons_of_mem _ hq))
          hL hpw2 (fun q hq => by
            show (if (⟨q.1.lat, q.1.long.emod (P.L : Int)⟩ : Coord) =
                (⟨c.lat, c.long.emod (P.L : Int)⟩ : Coord) then some (mk id)
              else cells ⟨q.1.lat, q.1.long.emod (P.L : Int)⟩) = none
            rw [if_neg (fun hcc => (hhd q hq) hcc.symm)]
            exact hnone q (List.mem_cons_of_mem _ hq))
      refine ⟨cells2, ?_⟩
      unfold insert_validated_checked
      rw [validate_coord_of hb1 hb2 hL, except_bind_ok, hhead]
      exact hc2

theorem lateral_insert_post {P : Dims} {preCells : Cells}
    {origBikes : List Bike} {cars : List Car} {S : Nat → Prop}
    {cells : Cells} {bikes : List Bike} {i : Nat} {chosen orig : Bike}
    {vcs : List Coord}
    (hrep : ∀ c w, preCells c = some w ↔
      (match w with
       | Vehicle.car j => ∃ car, cars.get? j = some car ∧ c ∈ car.cellsV P
       | Vehicle.bike k => ∃ ob, origBikes.get? k = some ob ∧
           c ∈ ob.cellsV P))
    (hinv : AcceptInv P preCells origBikes cars S (cells, bikes))
    (hSi : ¬ S i)
    (hget : origBikes.get? i = some orig)
    (hframe : bike_frame_eq orig chosen)
    (havoid : ∀ c ∈ chosen.cellsV P, ∀ w, preCells c = some w →
      w = Vehicle.bike i)
    (hnone : ∀ c ∈ chosen.cellsV P, cells c = none)
    (hvcs : mapExcept (validate_coord P) chosen.occupied_cells = .ok vcs)
    (hlt : i < bikes.length) :
    AcceptInv P preCells origBikes cars (fun j => S j ∨ j = i)
      (insert_cells cells vcs (Vehicle.bike i), bikes.set i chosen) := by
  obtain ⟨hlen, hunproc, hproc, hcells⟩ := hinv
  obtain ⟨hvcs_eq, hgrid⟩ := mapExcept_validate_ok hvcs
  subst hvcs_eq
  refine ⟨?_, ?_, ?_, ?_⟩
  · show (bikes.set i chosen).length = origBikes.length
    rw [List.length_set]
    exact hlen
  · intro j hj
    have hjS : ¬ S j := fun hx => hj (Or.inl hx)
    have hji : j ≠ i := fun hx => hj (Or.inr hx)
    show (bikes.set i chosen).get? j = origBikes.get? j
    rw [List.get?_set_ne chosen bikes (fun hx => hji hx.symm)]
    exact hunproc j hjS
  · intro j hj
    rcases hj with hSj | hji
    · by_cases hji : j = i
      · rw [hji] at hSj
        exact absurd hSj hSi
      · obtain ⟨ob, nbj, h1, h2, h3, h4, h5⟩ := hproc j hSj
        refine ⟨ob, nbj, h1, ?_, h3, h4, h5⟩
        show (bikes.set i chosen).get? j = some nbj
        rw [List.get?_set_ne chosen bikes (fun hx => hji hx.symm)]
        exact h2
    · refine ⟨orig, chosen, ?_, ?_, hframe, hgrid, ?_⟩
      · rw [hji]
        exact hget
      · show (bikes.set i chosen).get? j = some chosen
        rw [hji]
        exact List.get?_set_eq_of_lt chosen hlt
      · intro c hc w hw
        rw [hji]
        exact havoid c hc w hw
  · intro c w
    show insert_cells cells (cellsV P chosen.occupied_cells)
      (Vehicle.bike i) c = some w ↔ _
    rw [insert_cells_apply]
    by_cases hc : c ∈ cellsV P chosen.occupied_cells
    · rw [if_pos hc]
      constructor
      · intro hw
        have hwb : Vehicle.bike i = w := by injection hw
        subst hwb
        exact ⟨Or.inr rfl, chosen, List.get?_set_eq_of_lt chosen hlt, hc⟩
      · intro hRHS
        cases w with
        | car j =>
            have hpc : preCells c = some (Vehicle.car j) :=
              (hrep c (Vehicle.car j)).mpr hRHS
            cases havoid c hc _ hpc
        | bike k =>
            obtain ⟨hSk, nb', hget2, hc'⟩ := hRHS
            by_cases hki : k = i
            · subst hki
              rfl
            · have hSk2 : S k := by
                rcases hSk with hSk2 | hx
                · exact hSk2
                · exact absurd hx hki
              rw [List.get?_set_ne chosen bikes
                (fun hx => hki hx.symm)] at hget2
              have hcc : cells c = some (Vehicle.bike k) :=
                (hcells c (Vehicle.bike k)).mpr ⟨hSk2, nb', hget2, hc'⟩
              rw [hnone c hc] at hcc
              cases hcc
    · rw [if_neg hc]
      refine Iff.trans (hcells c w) ?_
      cases w with
      | car j => exact Iff.rfl
      | bike k =>
          show (S k ∧ ∃ nb', bikes.get? k = some nb' ∧ c ∈ nb'.cellsV P) ↔
            ((S k ∨ k = i) ∧ ∃ nb', (bikes.set i chosen).get? k = some nb' ∧
              c ∈ nb'.cellsV P)
          by_cases hki : k = i
          · subst hki
            constructor
            · intro hx
              exact absurd hx.1 hSi
            · intro hx
              obtain ⟨_, nb', hget2, hc'⟩ := hx
              rw [List.get?_set_eq_of_lt chosen hlt] at hget2
              have hnb' : chosen = nb' := by injection hget2
              subst hnb'
              exact absurd hc' hc
          · have hset : (bikes.set i chosen).get? k = bikes.get? k :=
              List.get?_set_ne chosen bikes (fun hx => hki hx.symm)
            rw [hset]
            constructor
            · intro hx
              exact ⟨Or.inl hx.1, hx.2⟩
            · intro hx
              refine ⟨?_, hx.2⟩
              rcases hx.1 with hSk2 | hx2
              · exact hSk2
              · exact absurd hx2 hki

theorem get_bike_or_err_ok {bikes : List Bike} {bike_id : Nat} {b : Bike}
    (h : get_bike_or_err bikes bike_id = .ok b) :
    bikes.get? bike_id = some b := by
  unfold get_bike_or_err at h
  cases hbg : bikes.get? bike_id with
  | none =>
      rw [hbg] at h
      exact Except.noConfusion h
  | some b2 =>
      rw [hbg] at h
      have hb : b2 = b := by injection h
      rw [hb]

theorem get_bike_or_err_of {bikes : List Bike} {bike_id : Nat} {b : Bike}
    (h : bikes.get? bike_id = some b) :
    get_bike_or_err bikes bike_id = .ok b := by
  unfold get_bike_or_err
  rw [h]
  rfl

theorem lateral_accept_step {P : Dims} {preCells : Cells}
    {origBikes : List Bike} {cars : List Car} {S : Nat → Prop}
    {cells : Cells} {bikes : List Bike} {i : Nat} {nb : Bike}
    {st1 : Cells × List Bike}
    (hrep : ∀ c w, preCells c = some w ↔
      (match w with
       | Vehicle.car j => ∃ car, cars.get? j = some car ∧ c ∈ car.cellsV P
       | Vehicle.bike k => ∃ ob, origBikes.get? k = some ob ∧
           c ∈ ob.cellsV P))
    (hinv : AcceptInv P preCells origBikes cars S (cells, bikes))
    (hSi : ¬ S i)
    (horig : ∃ orig, origBikes.get? i = some orig ∧ bike_frame_eq orig nb ∧
      (nb.occupation = orig.occupation ∨
        ∀ c ∈ nb.cellsV P, ∀ w, preCells c = some w → w = Vehicle.bike i))
    (hstep : lateral_accept P (cells, bikes) (i, nb) = .ok st1) :
    AcceptInv P preCells origBikes cars (fun j => S j ∨ j = i) st1 := by
  obtain ⟨orig, hget, hframe, hocc⟩ := horig
  have hinv' := hinv
  obtain ⟨hlen, hunproc, hproc, hcells⟩ := hinv'
  have hporig : ∀ c ∈ orig.cellsV P, preCells c = some (Vehicle.bike i) :=
    fun c hc => (hrep c (Vehicle.bike i)).mpr ⟨orig, hget, hc⟩
  have havoid_of : ∀ chosen : Bike,
      (∀ c ∈ chosen.cellsV P, preCells c = some (Vehicle.bike i)) →
      ∀ c ∈ chosen.cellsV P, ∀ w, preCells c = some w →
        w = Vehicle.bike i := by
    intro chosen hpc c hc w hw
    have h2 := hw.symm.trans (hpc c hc)
    injection h2
  have havoid_nb : ∀ c ∈ nb.cellsV P, ∀ w, preCells c = some w →
      w = Vehicle.bike i := by
    rcases hocc with heq | havd
    · have hcv : nb.cellsV P = orig.cellsV P := by
        show cellsV P nb.occupation.occupied_cells =
          cellsV P orig.occupation.occupied_cells
        rw [heq]
      rw [hcv]
      exact havoid_of orig hporig
    · exact havd
  have havoid_orig : ∀ c ∈ orig.cellsV P, ∀ w, preCells c = some w →
      w = Vehicle.bike i := havoid_of orig hporig
  have hnone_of : ∀ chosen : Bike,
      (∀ c ∈ chosen.cellsV P, ∀ w, preCells c = some w →
        w = Vehicle.bike i) →
      (∀ c ∈ chosen.cellsV P, preCells c = some (Vehicle.bike i)) →
      ∀ c ∈ chosen.cellsV P, cells c = none := by
    intro chosen havd hpc c hc
    cases hcc : cells c with
    | none => rfl
    | some w =>
        exfalso
        have hRHS := (hcells c w).mp hcc
        cases w with
        | car j =>
            have hpcar : preCells c = some (Vehicle.car j) :=
              (hrep c (Vehicle.car j)).mpr hRHS
            cases havd c hc _ hpcar
        | bike k =>
            obtain ⟨hSk, nb', hget2, hc'⟩ := hRHS
            obtain ⟨obk, nbk, hgk, hgk2, _, _, havk⟩ := hproc k hSk
            have hnbk : nbk = nb' := by
              have := hgk2.symm.trans hget2
              injection this
            rw [hnbk] at havk
            have hki := havk c hc' _ (hpc c hc)
            have hik : i = k := by injection hki
            rw [← hik] at hSk
            exact hSi hSk
  simp only [lateral_accept] at hstep
  cases hcol : collisions_for P cells nb.occupied_cells with
  | error e => rw [hcol, except_bind_error] at hstep; cases hstep
  | ok colls =>
      rw [hcol, except_bind_ok] at hstep
      obtain ⟨hceq, _⟩ := collisions_for_ok hcol
      by_cases hemp : colls.isEmpty
      · rw [if_pos hemp, except_pure, except_bind_ok] at hstep
        have hnone : ∀ c ∈ nb.cellsV P, cells c = none := by
          intro c hc
          have hnil : colls = [] := List.isEmpty_iff.mp hemp
          rw [hnil] at hceq
          exact List.filterMap_eq_nil.mp hceq.symm c hc
        cases hv : mapExcept (validate_coord P) nb.occupied_cells with
        | error e => rw [hv, except_bind_error] at hstep; cases hstep
        | ok vcs =>
            rw [hv, except_bind_ok] at hstep
            by_cases hlt : i < bikes.length
            · rw [if_pos hlt, except_pure] at hstep
              have hst1 : (insert_cells cells vcs (Vehicle.bike i),
                  bikes.set i nb) = st1 := by injection hstep
              rw [← hst1]
              exact lateral_insert_post hrep hinv hSi hget hframe
                havoid_nb hnone hv hlt
            · rw [if_neg hlt] at hstep; cases hstep
      · rw [if_neg hemp] at hstep
        cases hgb : get_bike_or_err bikes i with
        | error e => rw [hgb, except_bind_error] at hstep; cases hstep
        | ok chosen =>
            rw [hgb, except_bind_ok] at hstep
            have hchosen : chosen = orig := by
              have h1 := get_bike_or_err_ok hgb
              rw [hunproc i hSi, hget] at h1
              injection h1 with h2
              exact h2.symm
            subst hchosen
            have hnone : ∀ c ∈ chosen.cellsV P, cells c = none :=
              hnone_of chosen havoid_orig hporig
            cases hv : mapExcept (validate_coord P) chosen.occupied_cells with
            | error e => rw [hv, except_bind_error] at hstep; cases hstep
            | ok vcs =>
                rw [hv, except_bind_ok] at hstep
                by_cases hlt : i < bikes.length
                · rw [if_pos hlt, except_pure] at hstep
                  have hst1 : (insert_cells cells vcs (Vehicle.bike i),
                      bikes.set i chosen) = st1 := by injection hstep
                  rw [← hst1]
                  exact lateral_insert_post hrep hinv hSi hget
                    ⟨rfl, rfl, rfl, rfl, rfl, rfl, rfl, rfl, rfl, rfl⟩
                    havoid_orig hnone hv hlt
                · rw [if_neg hlt] at hstep; cases hstep

theorem lateral_accept_fold {P : Dims} {preCells : Cells}
    {origBikes : List Bike} {cars : List Car} :
    ∀ (props : List (Nat × Bike)) (S : Nat → Prop)
      (st st' : Cells × List Bike),
    (∀ p ∈ props, ∃ orig, origBikes.get? p.1 = some orig ∧
      bike_frame_eq orig p.2 ∧
      (p.2.occupation = orig.occupation ∨
        ∀ c ∈ p.2.cellsV P, ∀ w, preCells c = some w →
          w = Vehicle.bike p.1)) →
    (∀ p ∈ props, ¬ S p.1) →
    (props.map Prod.fst).Nodup →
    (∀ c w, preCells c = some w ↔
      (match w with
       | Vehicle.car j => ∃ car, cars.get? j = some car ∧ c ∈ car.cellsV P
       | Vehicle.bike k => ∃ ob, origBikes.get? k = some ob ∧
           c ∈ ob.cellsV P)) →
    AcceptInv P preCells origBikes cars S st →
    foldExcept (lateral_accept P) st props = .ok st' →
    AcceptInv P preCells origBikes cars
      (fun j => S j ∨ ∃ b, (j, b) ∈ props) st' := by
  intro props
  induction props with
  | nil =>
      intro S st st' _ _ _ _ hinv h
      unfold foldExcept at h
      rw [except_pure] at h
      have hst : st = st' := by injection h
      rw [← hst]
      exact AcceptInv_congr (fun j => by simp) hinv
  | cons p rest ih =>
      intro S st st' hprops hS hnd hrep hinv h
      obtain ⟨i, nb⟩ := p
      obtain ⟨cells, bikes⟩ := st
      simp only [foldExcept] at h
      cases hstep : lateral_accept P (cells, bikes) (i, nb) with
      | error e => rw [hstep, except_bind_error] at h; cases h
      | ok st1 =>
          rw [hstep, except_bind_ok] at h
          have hSstep := lateral_accept_step hrep hinv
            (hS (i, nb) (List.mem_cons_self _ _))
            (hprops (i, nb) (List.mem_cons_self _ _)) hstep
          rw [List.map_cons] at hnd
          obtain ⟨hni, hnd2⟩ := List.nodup_cons.mp hnd
          have hS' : ∀ p ∈ rest, ¬ (S p.1 ∨ p.1 = i) := by
            intro q hq hor
            rcases hor with hSq | hqi
            · exact hS q (List.mem_cons_of_mem _ hq) hSq
            · have hmm : q.1 ∈ rest.map Prod.fst :=
                List.mem_map_of_mem Prod.fst hq
              rw [hqi] at hmm
              exact hni hmm
          have hres := ih (fun j => S j ∨ j = i) st1 st'
            (fun q hq => hprops q (List.mem_cons_of_mem _ hq))
            hS' hnd2 hrep hSstep h
          refine AcceptInv_congr (fun j => ?_) hres
          constructor
          · rintro ((hSj | hji) | ⟨b, hb⟩)
            · exact Or.inl hSj
            · exact Or.inr ⟨nb, by rw [hji]; exact List.mem_cons_self _ _⟩
            · exact Or.inr ⟨b, List.mem_cons_of_mem _ hb⟩
          · rintro (hSj | ⟨b, hb⟩)
            · exact Or.inl (Or.inl hSj)
            · rcases List.mem_cons.mp hb with heq | hb2
              · exact Or.inl (Or.inr (congrArg Prod.fst heq))
              · exact Or.inr ⟨b, hb2⟩

theorem wipe_bikes_cells {P : Dims} {road : Road} {wiped : Cells}
    (hwf : WellFormed P road)
    (h : road.wipe_bikes_from_cells P = .ok wiped) :
    ∀ c w, wiped c = some w ↔
      (match w with
       | Vehicle.car j => ∃ car, road.cars.get? j = some car ∧
           c ∈ car.cellsV P
       | Vehicle.bike k => False) := by
  unfold Road.wipe_bikes_from_cells at h
  cases hvb : mapExcept (validate_coord P)
      (road.bikes.flatMap Bike.occupied_cells) with
  | error e => rw [hvb, except_bind_error] at h; cases h
  | ok vcs =>
      rw [hvb, except_bind_ok, except_pure] at h
      have hw : erase_cells road.cells vcs = wiped := by injection h
      obtain ⟨hvcs_eq, _⟩ := mapExcept_validate_ok hvb
      subst hvcs_eq
      intro c w
      rw [← hw, erase_cells_apply]
      have hmem : c ∈ cellsV P (road.bikes.flatMap Bike.occupied_cells) ↔
          ∃ b ∈ road.bikes, c ∈ b.cellsV P := by
        rw [cellsV_flatMap]
        exact List.mem_flatMap
      by_cases hc : c ∈ cellsV P (road.bikes.flatMap Bike.occupied_cells)
      · rw [if_pos hc]
        obtain ⟨b, hbmem, hbc⟩ := hmem.mp hc
        obtain ⟨i, hbi⟩ := List.get?_of_mem hbmem
        have hbike : road.cells c = some (Vehicle.bike i) :=
          (hwf.represents c (Vehicle.bike i)).mpr ⟨b, hbi, hbc⟩
        constructor
        · intro hx; cases hx
        · intro hx
          exfalso
          cases w with
          | bike k => exact hx
          | car j =>
              have hcar : road.cells c = some (Vehicle.car j) :=
                (hwf.represents c (Vehicle.car j)).mpr hx
              have h2 : Vehicle.bike i = Vehicle.car j := by
                injection hbike.symm.trans hcar
              exact Vehicle.noConfusion h2
      · rw [if_neg hc]
        refine Iff.trans (hwf.represents c w) ?_
        cases w with
        | car j => exact Iff.rfl
        | bike k =>
            show (∃ b, road.bikes.get? k = some b ∧ c ∈ b.cellsV P) ↔ False
            constructor
            · rintro ⟨b, hbk, hbc⟩
              exact hc (hmem.mpr ⟨b, List.get?_mem hbk, hbc⟩)
            · intro hx; exact hx.elim

theorem wipe_cars_cells {P : Dims} {road : Road} {wiped : Cells}
    (hwf : WellFormed P road)
    (h : road.wipe_cars_from_cells P = .ok wiped) :
    ∀ c w, wiped c = some w ↔
      (match w with
       | Vehicle.car j => False
       | Vehicle.bike k => ∃ b, road.bikes.get? k = some b ∧
           c ∈ b.cellsV P) := by
  unfold Road.wipe_cars_from_cells at h
  cases hvb : mapExcept (validate_coord P)
      (road.cars.flatMap Car.occupied_cells) with
  | error e => rw [hvb, except_bind_error] at h; cases h
  | ok vcs =>
      rw [hvb, except_bind_ok, except_pure] at h
      have hw : erase_cells road.cells vcs = wiped := by injection h
      obtain ⟨hvcs_eq, _⟩ := mapExcept_validate_ok hvb
      subst hvcs_eq
      intro c w
      rw [← hw, erase_cells_apply]
      have hmem : c ∈ cellsV P (road.cars.flatMap Car.occupied_cells) ↔
          ∃ car ∈ road.cars, c ∈ car.cellsV P := by
        rw [cellsV_flatMap]
        exact List.mem_flatMap
      by_cases hc : c ∈ cellsV P (road.cars.flatMap Car.occupied_cells)
      · rw [if_pos hc]
        obtain ⟨car, hcmem, hcc⟩ := hmem.mp hc
        obtain ⟨j, hcj⟩ := List.get?_of_mem hcmem
        have hcar : road.cells c = some (Vehicle.car j) :=
          (hwf.represents c (Vehicle.car j)).mpr ⟨car, hcj, hcc⟩
        constructor
        · intro hx; cases hx
        · intro hx
          exfalso
          cases w with
          | car k => exact hx
          | bike i =>
              have hbike : road.cells c = some (Vehicle.bike i) :=
                (hwf.represents c (Vehicle.bike i)).mpr hx
              have h2 : Vehicle.car j = Vehicle.bike i := by
                injection hcar.symm.trans hbike
              exact Vehicle.noConfusion h2
      · rw [if_neg hc]
        refine Iff.trans (hwf.represents c w) ?_
        cases w with
        | bike k => exact Iff.rfl
        | car j =>
            show (∃ car, road.cars.get? j = some car ∧ c ∈ car.cellsV P) ↔
              False
            constructor
            · rintro ⟨car, hcj, hcc⟩
              exact hc (hmem.mpr ⟨car, List.get?_mem hcj, hcc⟩)
            · intro hx; exact hx.elim

theorem bikes_lateral_update_wf {P : Dims} {o : Oracle} {road road1 : Road}
    (hwf : WellFormed P road) (hov : o.Valid)
    (h : road.bikes_lateral_update P o = .ok road1) :
    WellFormed P road1 ∧ road1.cars = road.cars := by
  obtain ⟨hshuf, hpick⟩ := hov
  simp only [Road.bikes_lateral_update] at h
  cases hnext : road.next_bikes_lateral P o with
  | error e => rw [hnext, except_bind_error] at h; cases h
  | ok next =>
      rw [hnext, except_bind_ok] at h
      cases hwip : road.wipe_bikes_from_cells P with
      | error e => rw [hwip, except_bind_error] at h; cases h
      | ok wiped =>
          rw [hwip, except_bind_ok] at h
          cases hfold : foldExcept (lateral_accept P) (wiped, road.bikes)
              (o.shuffle next.enum) with
          | error e => rw [hfold, except_bind_error] at h; cases h
          | ok result =>
              rw [hfold, except_bind_ok, except_pure] at h
              have hroad1 : ({ road with
                  cells := result.1
                  bikes := result.2 } : Road) = road1 := by injection h
              subst hroad1
              have hnext' : mapExcept (fun p : Nat × Bike =>
                  p.2.lateral_update P p.1 road (o.bike_ignore_draw p.1)
                    o.pick) road.bikes.enum = .ok next := hnext
              have hlen_next : next.length = road.bikes.length := by
                have h1 := mapExcept_length hnext'
                rw [List.enum_length] at h1
                exact h1
              have hrep : ∀ c w, road.cells c = some w ↔
                  (match w with
                   | Vehicle.car j => ∃ car, road.cars.get? j = some car ∧
                       c ∈ car.cellsV P
                   | Vehicle.bike k => ∃ ob, road.bikes.get? k = some ob ∧
                       c ∈ ob.cellsV P) := by
                intro c w
                refine Iff.trans (hwf.represents c w) ?_
                cases w with
                | car j => exact Iff.rfl
                | bike k => exact Iff.rfl
              have hprops : ∀ p ∈ o.shuffle next.enum,
                  ∃ orig, road.bikes.get? p.1 = some orig ∧
                    bike_frame_eq orig p.2 ∧
                    (p.2.occupation = orig.occupation ∨
                      ∀ c ∈ p.2.cellsV P, ∀ w, road.cells c = some w →
                        w = Vehicle.bike p.1) := by
                intro p hp
                have hpe : p ∈ next.enum := (hshuf next.enum).mem_iff.mp hp
                have hg : next.get? p.1 = some p.2 := mem_enum_get? hpe
                have hlt : p.1 < road.bikes.length := by
                  obtain ⟨hl, _⟩ := List.get?_eq_some.mp hg
                  omega
                cases horig : road.bikes.get? p.1 with
                | none =>
                    rw [List.get?_eq_none] at horig
                    omega
                | some orig =>
                    have henum : road.bikes.enum.get? p.1 =
                        some (p.1, orig) := by
                      rw [enum_get?, horig]
                      rfl
                    obtain ⟨y, hy, hf⟩ := mapExcept_get hnext' p.1
                      (p.1, orig) henum
                    have hyp2 : y = p.2 := by
                      have h2 := hy.symm.trans hg
                      injection h2
                    subst hyp2
                    have hf' : orig.lateral_update P p.1 road
                        (o.bike_ignore_draw p.1) o.pick = .ok p.2 := hf
                    obtain ⟨hframe, hocc⟩ := lateral_update_shape hpick hf'
                    refine ⟨orig, rfl, hframe, ?_⟩
                    rcases hocc with heq | ⟨_, _, havd⟩
                    · exact Or.inl heq
                    · exact Or.inr havd
              have hwiped := wipe_bikes_cells hwf hwip
              have hinv0 : AcceptInv P road.cells road.bikes road.cars
                  (fun _ => False) (wiped, road.bikes) := by
                refine ⟨rfl, fun i _ => rfl, fun i hi => hi.elim, ?_⟩
                intro c w
                refine Iff.trans (hwiped c w) ?_
                cases w with
                | car j => exact Iff.rfl
                | bike k =>
                    constructor
                    · intro hx; exact hx.elim
                    · rintro ⟨hx, _⟩; exact hx.elim
              have hnd : ((o.shuffle next.enum).map Prod.fst).Nodup := by
                have hperm := (hshuf next.enum).map Prod.fst
                refine (List.Perm.nodup_iff hperm).mpr ?_
                rw [List.enum_map_fst]
                exact List.nodup_range next.length
              have hres := lateral_accept_fold (o.shuffle next.enum)
                (fun _ => False) (wiped, road.bikes) result hprops
                (fun p hp hF => hF) hnd hrep hinv0 hfold
              have hres2 : AcceptInv P road.cells road.bikes road.cars
                  (fun j => j < road.bikes.length) result :=
                AcceptInv_congr (fun j => by
                  constructor
                  · rintro (hF | ⟨b, hb⟩)
                    · exact hF.elim
                    · have hpe : (j, b) ∈ next.enum :=
                        (hshuf next.enum).mem_iff.mp hb
                      obtain ⟨hl, _⟩ :=
                        List.get?_eq_some.mp (mem_enum_get? hpe)
                      omega
                  · intro hj
                    have hjn : j < next.length := by omega
                    exact Or.inr ⟨next.get ⟨j, hjn⟩,
                      (hshuf next.enum).mem_iff.mpr
                        (enum_mem_of_get? (List.get?_eq_get hjn))⟩) hres
              obtain ⟨flen, funproc, fproc, fcells⟩ := hres2
              refine ⟨⟨hwf.hL, ?_, hwf.car_dims, ?_, hwf.cars_on_grid, ?_⟩,
                rfl⟩
              · intro b hb
                obtain ⟨j, hj⟩ := List.get?_of_mem hb
                have hjl : j < road.bikes.length := by
                  obtain ⟨hl, _⟩ := List.get?_eq_some.mp hj
                  rw [flen] at hl
                  exact hl
                obtain ⟨orig, nbj, ho1, ho2, hofr, hog, _⟩ := fproc j hjl
                have hbe : nbj = b := by
                  have h2 := ho2.symm.trans hj
                  injection h2
                subst hbe
                have hd := hwf.bike_dims orig (List.get?_mem ho1)
                obtain ⟨hfr1, hfr2, hfr3, hfr4, hfr5, hfr6, hfr7, hfr8,
                  hfr9, hfr10⟩ := hofr
                refine ⟨?_, ?_, ?_, ?_, ?_, ?_, ?_, ?_, ?_, ?_⟩
                · rw [hfr2]; exact hd.1
                · rw [hfr3]; exact hd.2.1
                · rw [hfr4]; exact hd.2.2.1
                · rw [hfr4, hfr5]; exact hd.2.2.2.1
                · rw [hfr6]; exact hd.2.2.2.2.1
                · rw [hfr7]; exact hd.2.2.2.2.2.1
                · rw [hfr8]; exact hd.2.2.2.2.2.2.1
                · rw [hfr8]; exact hd.2.2.2.2.2.2.2.1
                · rw [hfr9]; exact hd.2.2.2.2.2.2.2.2.1
                · rw [hfr9]; exact hd.2.2.2.2.2.2.2.2.2
              · intro b hb
                obtain ⟨j, hj⟩ := List.get?_of_mem hb
                have hjl : j < road.bikes.length := by
                  obtain ⟨hl, _⟩ := List.get?_eq_some.mp hj
                  rw [flen] at hl
                  exact hl
                obtain ⟨orig, nbj, ho1, ho2, hofr, hog, _⟩ := fproc j hjl
                have hbe : nbj = b := by
                  have h2 := ho2.symm.trans hj
                  injection h2
                subst hbe
                exact hog
              · intro c v
                refine Iff.trans (fcells c v) ?_
                cases v with
                | car j => exact Iff.rfl
                | bike k =>
                    show (k < road.bikes.length ∧ ∃ nb,
                        result.2.get? k = some nb ∧ c ∈ nb.cellsV P) ↔
                      (∃ b, result.2.get? k = some b ∧ c ∈ b.cellsV P)
                    constructor
                    · rintro ⟨_, nb, h1, h2⟩
                      exact ⟨nb, h1, h2⟩
                    · rintro ⟨b, h1, h2⟩
                      obtain ⟨hl, _⟩ := List.get?_eq_some.mp h1
                      rw [flen] at hl
                      exact ⟨hl, b, h1, h2⟩

theorem forward_update_ok_elim {P : Dims} {b : Bike} {road : Road}
    {decel : Bool} {nb : Bike}
    (h : b.forward_update P road decel = .ok nb) :
    ∃ g : Nat, P.L ≠ 0 ∧
      nb = { b with
        occupation := { b.occupation with
          front := (b.occupation.front + (if decel
            then max (min (min (b.forward_speed + b.forward_acceleration)
              b.forward_speed_max) ((g : Nat) : Int) - 1) 0
            else min (min (b.forward_speed + b.forward_acceleration)
              b.forward_speed_max) ((g : Nat) : Int))).emod (P.L : Int) },
        forward_speed := if decel
          then max (min (min (b.forward_speed + b.forward_acceleration)
            b.forward_speed_max) ((g : Nat) : Int) - 1) 0
          else min (min (b.forward_speed + b.forward_acceleration)
            b.forward_speed_max) ((g : Nat) : Int) } := by
  unfold Bike.forward_update Road.front_gap at h
  cases hg : mapExcept (fun c => cells_front_gap P road.cells c none)
      b.occupation.front_cells with
  | error e => rw [hg, except_bind_error] at h; cases h
  | ok gaps =>
      rw [hg, except_bind_ok, except_pure, except_bind_ok] at h
      cases hmin : gaps.min? with
      | none =>
          rw [hmin] at h
          exact Except.noConfusion h
      | some g =>
          rw [hmin] at h
          simp only [except_pure, except_bind_ok] at h
          by_cases hL : P.L = 0
          · rw [if_pos hL] at h
            cases h
          · rw [if_neg hL] at h
            refine ⟨g, hL, ?_⟩
            injection h with h2
            exact h2.symm

theorem forward_update_shape {P : Dims} {b : Bike} {road : Road}
    {decel : Bool} {nb : Bike}
    (h : b.forward_update P road decel = .ok nb)
    (hs0 : 0 ≤ b.forward_speed)
    (hsm : b.forward_speed ≤ b.forward_speed_max)
    (ha : 1 ≤ b.forward_acceleration) :
    nb.occupation.right = b.occupation.right ∧
    nb.occupation.width = b.occupation.width ∧
    nb.occupation.length = b.occupation.length ∧
    nb.forward_speed_max = b.forward_speed_max ∧
    nb.forward_acceleration = b.forward_acceleration ∧
    nb.rightward_speed_max = b.rightward_speed_max ∧
    nb.lateral_ignorance = b.lateral_ignorance ∧
    nb.deceleration_prob = b.deceleration_prob ∧
    nb.y_star_selection_strategy = b.y_star_selection_strategy ∧
    0 ≤ nb.forward_speed ∧ nb.forward_speed ≤ nb.forward_speed_max := by
  obtain ⟨g, hL, rfl⟩ := forward_update_ok_elim h
  have h1 : 0 ≤ b.forward_speed + b.forward_acceleration := by omega
  have h2 : (0 : Int) ≤ b.forward_speed_max := le_trans hs0 hsm
  have h3 : (0 : Int) ≤ ((g : Nat) : Int) := Int.natCast_nonneg g
  have hmin0 : 0 ≤ min (min (b.forward_speed + b.forward_acceleration)
      b.forward_speed_max) ((g : Nat) : Int) :=
    le_min (le_min h1 h2) h3
  have hminsm : min (min (b.forward_speed + b.forward_acceleration)
      b.forward_speed_max) ((g : Nat) : Int) ≤ b.forward_speed_max :=
    le_trans (min_le_left _ _) (min_le_right _ _)
  refine ⟨rfl, rfl, rfl, rfl, rfl, rfl, rfl, rfl, rfl, ?_, ?_⟩
  · show (0 : Int) ≤ (if decel
      then max (min (min (b.forward_speed + b.forward_acceleration)
        b.forward_speed_max) ((g : Nat) : Int) - 1) 0
      else min (min (b.forward_speed + b.forward_acceleration)
        b.forward_speed_max) ((g : Nat) : Int))
    by_cases hd : decel
    · rw [if_pos hd]
      exact le_max_right _ 0
    · rw [if_neg hd]
      exact hmin0
  · show (if decel
      then max (min (min (b.forward_speed + b.forward_acceleration)
        b.forward_speed_max) ((g : Nat) : Int) - 1) 0
      else min (min (b.forward_speed + b.forward_acceleration)
        b.forward_speed_max) ((g : Nat) : Int)) ≤ b.forward_speed_max
    by_cases hd : decel
    · rw [if_pos hd]
      exact max_le (by omega) h2
    · rw [if_neg hd]
      exact hminsm

theorem bikes_forward_update_wf {P : Dims} {o : Oracle} {road road1 : Road}
    (hwf : WellFormed P road)
    (h : road.bikes_forward_update P o = .ok road1) :
    WellFormed P road1 ∧ road1.cars = road.cars := by
  simp only [Road.bikes_forward_update] at h
  cases hnext : road.next_bikes_forward P o with
  | error e => rw [hnext, except_bind_error] at h; cases h
  | ok next =>
      rw [hnext, except_bind_ok] at h
      cases hwip : road.wipe_bikes_from_cells P with
      | error e => rw [hwip, except_bind_error] at h; cases h
      | ok wiped =>
          rw [hwip, except_bind_ok] at h
          cases hins : insert_validated_checked P Vehicle.bike wiped
              (next.enum.flatMap (fun p =>
                p.2.occupied_cells.map (fun c => (c, p.1)))) with
          | error e => rw [hins, except_bind_error] at h; cases h
          | ok cellsF =>
              rw [hins, except_bind_ok, except_pure] at h
              have hroad1 : ({ road with
                  bikes := next
                  cells := cellsF } : Road) = road1 := by injection h
              subst hroad1
              have hnext' : mapExcept (fun p : Nat × Bike =>
                  p.2.forward_update P road (o.bike_decel_draw p.1))
                  road.bikes.enum = .ok next := hnext
              have hlen_next : next.length = road.bikes.length := by
                have h1 := mapExcept_length hnext'
                rw [List.enum_length] at h1
                exact h1
              have hpairs : ∀ q : Coord × Nat,
                  q ∈ next.enum.flatMap (fun p =>
                    p.2.occupied_cells.map (fun c => (c, p.1))) ↔
                  ∃ nb, next.get? q.2 = some nb ∧
                    q.1 ∈ nb.occupied_cells := by
                intro q
                rw [List.mem_flatMap]
                constructor
                · rintro ⟨p, hp, hq⟩
                  obtain ⟨c0, hc0, hcq⟩ := List.mem_map.mp hq
                  have hg := mem_enum_get? hp
                  rw [← hcq]
                  exact ⟨p.2, hg, hc0⟩
                · rintro ⟨nb, hg, hc⟩
                  refine ⟨(q.2, nb), enum_mem_of_get? hg, ?_⟩
                  exact List.mem_map.mpr ⟨q.1, hc, rfl⟩
              obtain ⟨hbounds, hpw, hnone, hform⟩ :=
                insert_validated_checked_spec hins
              have hwiped := wipe_bikes_cells hwf hwip
              have hshape : ∀ j nb, next.get? j = some nb →
                  ∃ orig, road.bikes.get? j = some orig ∧
                    orig.forward_update P road (o.bike_decel_draw j) =
                      .ok nb := by
                intro j nb hj
                have hjl : j < road.bikes.length := by
                  obtain ⟨hl, _⟩ := List.get?_eq_some.mp hj
                  omega
                cases horig : road.bikes.get? j with
                | none =>
                    rw [List.get?_eq_none] at horig
                    omega
                | some orig =>
                    have henum : road.bikes.enum.get? j = some (j, orig) := by
                      rw [enum_get?, horig]
                      rfl
                    obtain ⟨y, hy, hf⟩ := mapExcept_get hnext' j
                      (j, orig) henum
                    have hyy : y = nb := by
                      have h2 := hy.symm.trans hj
                      injection h2
                    subst hyy
                    exact ⟨orig, rfl, hf⟩
              refine ⟨⟨hwf.hL, ?_, hwf.car_dims, ?_, hwf.cars_on_grid, ?_⟩,
                rfl⟩
              · intro b hb
                obtain ⟨j, hj⟩ := List.get?_of_mem hb
                obtain ⟨orig, ho, hf⟩ := hshape j b hj
                have hd := hwf.bike_dims orig (List.get?_mem ho)
                obtain ⟨hr, hw2, hl2, hsm2, ha2, hrm2, hig2, hdp2, hst2,
                  hs0, hsmx⟩ :=
                  forward_update_shape hf hd.2.2.1 hd.2.2.2.1 hd.2.2.2.2.1
                refine ⟨?_, ?_, hs0, hsmx, ?_, ?_, ?_, ?_, ?_, ?_⟩
                · rw [hw2]; exact hd.1
                · rw [hl2]; exact hd.2.1
                · rw [ha2]; exact hd.2.2.2.2.1
                · rw [hrm2]; exact hd.2.2.2.2.2.1
                · rw [hig2]; exact hd.2.2.2.2.2.2.1
                · rw [hig2]; exact hd.2.2.2.2.2.2.2.1
                · rw [hdp2]; exact hd.2.2.2.2.2.2.2.2.1
                · rw [hdp2]; exact hd.2.2.2.2.2.2.2.2.2
              · intro b hb
                obtain ⟨j, hj⟩ := List.get?_of_mem hb
                intro c hc
                have hq := (hpairs (c, j)).mpr ⟨b, hj, hc⟩
                have hbd := hbounds (c, j) hq
                exact ⟨hbd.1, hbd.2.1⟩
              · intro x v
                change cellsF x = some v ↔ _
                have hx := hform x
                split at hx
                next p hfind =>
                  have hpmem := List.mem_of_find?_eq_some hfind
                  have hpx : (⟨p.1.lat, p.1.long.emod (P.L : Int)⟩ : Coord)
                      = x := by
                    have hp1 := @List.find?_some _ (fun q : Coord × Nat =>
                      decide ((⟨q.1.lat, q.1.long.emod (P.L : Int)⟩ :
                        Coord) = x)) p _ hfind
                    exact of_decide_eq_true hp1
                  obtain ⟨nb, hg, hcc⟩ := (hpairs p).mp hpmem
                  rw [hx]
                  constructor
                  · intro hv
                    have hvv : Vehicle.bike p.2 = v := by injection hv
                    rw [← hvv]
                    exact ⟨nb, hg, by
                      rw [← hpx]
                      exact List.mem_map.mpr ⟨p.1, hcc, rfl⟩⟩
                  · intro hown
                    cases v with
                    | car j =>
                        have hwx : wiped x = some (Vehicle.car j) :=
                          (hwiped x (Vehicle.car j)).mpr hown
                        have hwn := hnone p hpmem
                        rw [hpx] at hwn
                        rw [hwn] at hwx
                        cases hwx
                    | bike k =>
                        obtain ⟨b', hg', hx'⟩ := hown
                        obtain ⟨c0, hc0, hceq⟩ := List.mem_map.mp hx'
                        have hc0pair := (hpairs (c0, k)).mpr ⟨b', hg', hc0⟩
                        have huniq : p = (c0, k) := by
                          by_cases hpe : p = (c0, k)
                          · exact hpe
                          · exfalso
                            have hR := hpw.forall
                              (by intro a b hab h2; exact hab h2.symm)
                              hpmem hc0pair hpe
                            exact hR (hpx.trans hceq.symm)
                        rw [huniq]
                next hfind =>
                  rw [hx]
                  refine Iff.trans (hwiped x v) ?_
                  cases v with
                  | car j => exact Iff.rfl
                  | bike k =>
                      constructor
                      · intro hF
                        exact hF.elim
                      · rintro ⟨b', hg', hx'⟩
                        obtain ⟨c0, hc0, hceq⟩ := List.mem_map.mp hx'
                        have hc0pair := (hpairs (c0, k)).mpr ⟨b', hg', hc0⟩
                        have hfF := List.find?_eq_none.mp hfind _ hc0pair
                        exact hfF (decide_eq_true hceq)

theorem car_fastest_bounds {P : Dims} {car : Car} {road : Road}
    {self_id : Nat} {r : Int}
    (h : car.fastest_safe_speed P road self_id = .ok r) :
    0 ≤ r ∧ r ≤ max car.next_iteration_potential_speed 0 := by
  have h' : fastest_safe_speed_aux P road.cells car self_id
      (intRangeIcc 1 car.next_iteration_potential_speed) ((1 : Int) - 1) =
      .ok r := h
  obtain ⟨h1, h2, _, _⟩ := fastest_safe_speed_aux_spec P road.cells car
    self_id car.next_iteration_potential_speed
    (car.next_iteration_potential_speed + 1 - 1).toNat 1 r rfl h'
  constructor
  · omega
  · have h3 : max car.next_iteration_potential_speed ((1 : Int) - 1) =
        max car.next_iteration_potential_speed 0 := by norm_num
    rw [h3] at h2
    exact h2

theorem car_update_ok_elim {P : Dims} {car : Car} {road : Road}
    {self_id : Nat} {decel : Bool} {ncar : Car}
    (h : car.update P road self_id decel = .ok ncar) :
    ∃ s, car.fastest_safe_speed P road self_id = .ok s ∧ P.L ≠ 0 ∧
      ncar = { car with
        front := (car.front +
          (if decel then max (s - 1) 0 else s)).emod (P.L : Int),
        speed := if decel then max (s - 1) 0 else s } := by
  unfold Car.update at h
  cases hs : car.fastest_safe_speed P road self_id with
  | error e => rw [hs, except_bind_error] at h; cases h
  | ok s =>
      rw [hs, except_bind_ok] at h
      simp only [] at h
      by_cases hL : P.L = 0
      · rw [if_pos hL] at h
        cases h
      · rw [if_neg hL, except_pure] at h
        refine ⟨s, rfl, hL, ?_⟩
        injection h with h2
        exact h2.symm

theorem car_update_shape {P : Dims} {car : Car} {road : Road}
    {self_id : Nat} {decel : Bool} {ncar : Car}
    (h : car.update P road self_id decel = .ok ncar)
    (hs0 : 0 ≤ car.speed) (hsm : car.speed ≤ car.speed_max) :
    ncar.length = car.length ∧ ncar.const_width = car.const_width ∧
    ncar.speed_max = car.speed_max ∧
    ncar.deceleration_prob = car.deceleration_prob ∧
    0 ≤ ncar.speed ∧ ncar.speed ≤ ncar.speed_max := by
  obtain ⟨s, hfs, hL, rfl⟩ := car_update_ok_elim h
  obtain ⟨hr0, hrmax⟩ := car_fastest_bounds hfs
  have hsmax0 : (0 : Int) ≤ car.speed_max := le_trans hs0 hsm
  have hpot : car.next_iteration_potential_speed ≤ car.speed_max := by
    unfold Car.next_iteration_potential_speed
    exact min_le_right _ _
  have hsmaxb : s ≤ car.speed_max :=
    le_trans hrmax (max_le hpot hsmax0)
  refine ⟨rfl, rfl, rfl, rfl, ?_, ?_⟩
  · show (0 : Int) ≤ (if decel then max (s - 1) 0 else s)
    by_cases hd : decel
    · rw [if_pos hd]
      exact le_max_right _ _
    · rw [if_neg hd]
      exact hr0
  · show (if decel then max (s - 1) 0 else s) ≤ car.speed_max
    by_cases hd : decel
    · rw [if_pos hd]
      exact max_le (by omega) hsmax0
    · rw [if_neg hd]
      exact hsmaxb

theorem cars_update_wf {P : Dims} {o : Oracle} {road road1 : Road}
    (hwf : WellFormed P road)
    (h : road.cars_update P o = .ok road1) :
    WellFormed P road1 ∧ road1.bikes = road.bikes := by
  simp only [Road.cars_update] at h
  cases hnext : road.next_cars P o with
  | error e => rw [hnext, except_bind_error] at h; cases h
  | ok next =>
      rw [hnext, except_bind_ok] at h
      cases hwip : road.wipe_cars_from_cells P with
      | error e => rw [hwip, except_bind_error] at h; cases h
      | ok wiped =>
          rw [hwip, except_bind_ok] at h
          cases hins : insert_validated_checked P Vehicle.car wiped
              (next.enum.flatMap (fun p =>
                p.2.occupied_cells.map (fun c => (c, p.1)))) with
          | error e => rw [hins, except_bind_error] at h; cases h
          | ok cellsF =>
              rw [hins, except_bind_ok, except_pure] at h
              have hroad1 : ({ road with
                  cars := next
                  cells := cellsF } : Road) = road1 := by injection h
              subst hroad1
              have hnext' : mapExcept (fun p : Nat × Car =>
                  p.2.update P road p.1 (o.car_decel_draw p.1))
                  road.cars.enum = .ok next := hnext
              have hlen_next : next.length = road.cars.length := by
                have h1 := mapExcept_length hnext'
                rw [List.enum_length] at h1
                exact h1
              have hpairs : ∀ q : Coord × Nat,
                  q ∈ next.enum.flatMap (fun p =>
                    p.2.occupied_cells.map (fun c => (c, p.1))) ↔
                  ∃ ncar, next.get? q.2 = some ncar ∧
                    q.1 ∈ ncar.occupied_cells := by
                intro q
                rw [List.mem_flatMap]
                constructor
                · rintro ⟨p, hp, hq⟩
                  obtain ⟨c0, hc0, hcq⟩ := List.mem_map.mp hq
                  have hg := mem_enum_get? hp
                  rw [← hcq]
                  exact ⟨p.2, hg, hc0⟩
                · rintro ⟨ncar, hg, hc⟩
                  refine ⟨(q.2, ncar), enum_mem_of_get? hg, ?_⟩
                  exact List.mem_map.mpr ⟨q.1, hc, rfl⟩
              obtain ⟨hbounds, hpw, hnone, hform⟩ :=
                insert_validated_checked_spec hins
              have hwiped := wipe_cars_cells hwf hwip
              have hshape : ∀ j ncar, next.get? j = some ncar →
                  ∃ orig, road.cars.get? j = some orig ∧
                    orig.update P road j (o.car_decel_draw j) =
                      .ok ncar := by
                intro j ncar hj
                have hjl : j < road.cars.length := by
                  obtain ⟨hl, _⟩ := List.get?_eq_some.mp hj
                  omega
                cases horig : road.cars.get? j with
                | none =>
                    rw [List.get?_eq_none] at horig
                    omega
                | some orig =>
                    have henum : road.cars.enum.get? j = some (j, orig) := by
                      rw [enum_get?, horig]
                      rfl
                    obtain ⟨y, hy, hf⟩ := mapExcept_get hnext' j
                      (j, orig) henum
                    have hyy : y = ncar := by
                      have h2 := hy.symm.trans hj
                      injection h2
                    subst hyy
                    exact ⟨orig, rfl, hf⟩
              refine ⟨⟨hwf.hL, hwf.bike_dims, ?_, hwf.bikes_on_grid, ?_,
                ?_⟩, rfl⟩
              · intro car hc
                obtain ⟨j, hj⟩ := List.get?_of_mem hc
                obtain ⟨orig, ho, hf⟩ := hshape j car hj
                have hd := hwf.car_dims orig (List.get?_mem ho)
                obtain ⟨hle, hcw, hsmx2, hdp2, hs0, hsmx⟩ :=
                  car_update_shape hf hd.2.2.1 hd.2.2.2.1
                refine ⟨?_, ?_, hs0, hsmx, ?_, ?_⟩
                · rw [hle]; exact hd.1
                · rw [hcw]; exact hd.2.1
                · rw [hdp2]; exact hd.2.2.2.2.1
                · rw [hdp2]; exact hd.2.2.2.2.2
              · intro car hc
                obtain ⟨j, hj⟩ := List.get?_of_mem hc
                intro c hcc
                have hq := (hpairs (c, j)).mpr ⟨car, hj, hcc⟩
                have hbd := hbounds (c, j) hq
                exact ⟨hbd.1, hbd.2.1⟩
              · intro x v
                change cellsF x = some v ↔ _
                have hx := hform x
                split at hx
                next p hfind =>
                  have hpmem := List.mem_of_find?_eq_some hfind
                  have hpx : (⟨p.1.lat, p.1.long.emod (P.L : Int)⟩ : Coord)
                      = x := by
                    have hp1 := @List.find?_some _ (fun q : Coord × Nat =>
                      decide ((⟨q.1.lat, q.1.long.emod (P.L : Int)⟩ :
                        Coord) = x)) p _ hfind
                    exact of_decide_eq_true hp1
                  obtain ⟨ncar, hg, hcc⟩ := (hpairs p).mp hpmem
                  rw [hx]
                  constructor
                  · intro hv
                    have hvv : Vehicle.car p.2 = v := by injection hv
                    rw [← hvv]
                    exact ⟨ncar, hg, by
                      rw [← hpx]
                      exact List.mem_map.mpr ⟨p.1, hcc, rfl⟩⟩
                  · intro hown
                    cases v with
                    | bike j =>
                        have hwx : wiped x = some (Vehicle.bike j) :=
                          (hwiped x (Vehicle.bike j)).mpr hown
                        have hwn := hnone p hpmem
                        rw [hpx] at hwn
                        rw [hwn] at hwx
                        cases hwx
                    | car k =>
                        obtain ⟨car', hg', hx'⟩ := hown
                        obtain ⟨c0, hc0, hceq⟩ := List.mem_map.mp hx'
                        have hc0pair := (hpairs (c0, k)).mpr ⟨car', hg', hc0⟩
                        have huniq : p = (c0, k) := by
                          by_cases hpe : p = (c0, k)
                          · exact hpe
                          · exfalso
                            have hR := hpw.forall
                              (by intro a b hab h2; exact hab h2.symm)
                              hpmem hc0pair hpe
                            exact hR (hpx.trans hceq.symm)
                        rw [huniq]
                next hfind =>
                  rw [hx]
                  refine Iff.trans (hwiped x v) ?_
                  cases v with
                  | bike j => exact Iff.rfl
                  | car k =>
                      constructor
                      · intro hF
                        exact hF.elim
                      · rintro ⟨car', hg', hx'⟩
                        obtain ⟨c0, hc0, hceq⟩ := List.mem_map.mp hx'
                        have hc0pair := (hpairs (c0, k)).mpr ⟨car', hg', hc0⟩
                        have hfF := List.find?_eq_none.mp hfind _ hc0pair
                        exact hfF (decide_eq_true hceq)

theorem oracleId_valid : oracleId.Valid := by
  constructor
  · intro l
    exact List.Perm.refl l
  · intro l x hx
    exact List.mem_of_mem_head? (Option.mem_def.mpr hx)

theorem roadC1_disjoint :
    ∀ x ∈ bikeC1.cellsV dimsC1, x ∉ carC1.cellsV dimsC1 := by decide

theorem roadC1_wf : WellFormed dimsC1 roadC1 := by
  refine ⟨by decide, ?_, ?_, ?_, ?_, ?_⟩
  · intro b hb
    rcases List.mem_singleton.mp hb with rfl
    exact ⟨by decide, by decide, by decide, by decide, by decide,
      by decide, by decide, by decide, by decide, by decide⟩
  · intro car hc
    rcases List.mem_singleton.mp hc with rfl
    exact ⟨by decide, by decide, by decide, by decide, by decide,
      by decide⟩
  · intro b hb
    rcases List.mem_singleton.mp hb with rfl
    unfold onGridList
    decide
  · intro car hc
    rcases List.mem_singleton.mp hc with rfl
    unfold onGridList
    decide
  · intro c v
    show (if c ∈ bikeC1.cellsV dimsC1 then some (Vehicle.bike 0)
      else if c ∈ carC1.cellsV dimsC1 then some (Vehicle.car 0)
      else none) = some v ↔ RoadOwner dimsC1 roadC1 c v
    by_cases hb : c ∈ bikeC1.cellsV dimsC1
    · rw [if_pos hb]
      cases v with
      | bike i =>
          constructor
          · intro hv
            have h2 : Vehicle.bike 0 = Vehicle.bike i := by injection hv
            have h0 : (0 : Nat) = i := by injection h2
            exact ⟨bikeC1, by rw [← h0]; rfl, hb⟩
          · rintro ⟨b, hgb, hcb⟩
            cases i with
            | zero => rfl
            | succ n => simp [roadC1] at hgb
      | car j =>
          constructor
          · intro hv
            have h2 : Vehicle.bike 0 = Vehicle.car j := by injection hv
            exact Vehicle.noConfusion h2
          · rintro ⟨car, hgc, hcc⟩
            exfalso
            cases j with
            | zero =>
                injection hgc with h3
                rw [← h3] at hcc
                exact roadC1_disjoint c hb hcc
            | succ n => simp [roadC1] at hgc
    · rw [if_neg hb]
      by_cases hcar : c ∈ carC1.cellsV dimsC1
      · rw [if_pos hcar]
        cases v with
        | car j =>
            constructor
            · intro hv
              have h2 : Vehicle.car 0 = Vehicle.car j := by injection hv
              have h0 : (0 : Nat) = j := by injection h2
              exact ⟨carC1, by rw [← h0]; rfl, hcar⟩
            · rintro ⟨car, hgc, hcc⟩
              cases j with
              | zero => rfl
              | succ n => simp [roadC1] at hgc
        | bike i =>
            constructor
            · intro hv
              have h2 : Vehicle.car 0 = Vehicle.bike i := by injection hv
              exact Vehicle.noConfusion h2
            · rintro ⟨b, hgb, hcb⟩
              exfalso
              cases i with
              | zero =>
                  injection hgb with h3
                  rw [← h3] at hcb
                  exact hb hcb
              | succ n => simp [roadC1] at hgb
      · rw [if_neg hcar]
        constructor
        · intro hv
          cases hv
        · intro hown
          exfalso
          cases v with
          | bike i =>
              obtain ⟨b, hgb, hcb⟩ := hown
              cases i with
              | zero =>
                  injection hgb with h3
                  rw [← h3] at hcb
                  exact hb hcb
              | succ n => simp [roadC1] at hgb
          | car j =>
              obtain ⟨car, hgc, hcc⟩ := hown
              cases j with
              | zero =>
                  injection hgc with h3
                  rw [← h3] at hcc
                  exact hcar hcc
              | succ n => simp [roadC1] at hgc

theorem roadC1_update_ok :
    ∃ road', roadC1.update dimsC1 oracleId = .ok road' := by
  cases h : roadC1.update dimsC1 oracleId with
  | ok r => exact ⟨r, rfl⟩
  | error e =>
      exfalso
      have hok : exceptIsOk (roadC1.update dimsC1 oracleId) = true := rfl
      rw [h] at hok
      simp [exceptIsOk] at hok

/-- **C1.**  One successful tick (`Road::update`: bike lateral phase,
then bike forward phase, then car phase) preserves the invariants of
the data model: positive dimensions, `0 ≤ speed ≤ speed_max` for every
agent, every occupied cell on the grid, and an index that exactly
represents the agents' cells — whence distinct agents remain
collision-free and the index's domain equals the union of the agents'
cells. -/
theorem road_update_preserves_invariants (P : Dims) (o : Oracle)
    (road road' : Road) (hwf : WellFormed P road) (hov : o.Valid)
    (h : road.update P o = .ok road') :
    WellFormed P road' ∧
    (∀ c v v', RoadOwner P road' c v → RoadOwner P road' c v' → v = v') ∧
    (∀ c, (∃ v, road'.cells c = some v) ↔ ∃ v, RoadOwner P road' c v) := by
  have hwf' : WellFormed P road' := by
    simp only [Road.update] at h
    cases h1 : road.bikes_lateral_update P o with
    | error e => rw [h1, except_bind_error] at h; cases h
    | ok r1 =>
        rw [h1, except_bind_ok] at h
        cases h2 : r1.bikes_forward_update P o with
        | error e => rw [h2, except_bind_error] at h; cases h
        | ok r2 =>
            rw [h2, except_bind_ok] at h
            obtain ⟨hwf1, _⟩ := bikes_lateral_update_wf hwf hov h1
            obtain ⟨hwf2, _⟩ := bikes_forward_update_wf hwf1 h2
            exact (cars_update_wf hwf2 h).1
  refine ⟨hwf', ?_, ?_⟩
  · intro c v v' hv hv'
    have h1 := (hwf'.represents c v).mpr hv
    have h2 := (hwf'.represents c v').mpr hv'
    have h3 := h1.symm.trans h2
    injection h3
  · intro c
    constructor
    · rintro ⟨v, hv⟩
      exact ⟨v, (hwf'.represents c v).mp hv⟩
    · rintro ⟨v, hv⟩
      exact ⟨v, (hwf'.represents c v).mpr hv⟩

/-- Witness for C1: the two-agent road `roadC1` satisfies the
invariants, the deterministic oracle is valid, its tick succeeds, and
the theorem yields the invariants for the successor state. -/
theorem road_update_preserves_invariants_witness :
    ∃ road', roadC1.update dimsC1 oracleId = .ok road' ∧
      WellFormed dimsC1 road' := by
  obtain ⟨road', hupd⟩ := roadC1_update_ok
  exact ⟨road', hupd, (road_update_preserves_invariants dimsC1 oracleId
    roadC1 road' roadC1_wf oracleId_valid hupd).1⟩

theorem mapExcept_singleton {α β : Type} {f : α → Except String β} {x : α}
    {y : β} (h : f x = .ok y) : mapExcept f [x] = .ok [y] := by
  unfold mapExcept
  rw [h, except_bind_ok]
  rfl

theorem cells_front_gap_ok_of {P : Dims} (cells : Cells) (mm : Option Nat)
    {c : Coord} (h1 : 0 ≤ c.lat) (h2 : c.lat < (P.total_width : Int))
    (hL : 0 < P.L) :
    ∃ g, cells_front_gap P cells c mm = .ok g := by
  unfold cells_front_gap
  rw [validate_coord_of h1 h2 hL, except_bind_ok]
  dsimp only
  split
  · exact ⟨_, rfl⟩
  · exact ⟨_, rfl⟩

theorem forward_update_fixed {P : Dims} {b : Bike} {road : Road}
    (hspd : b.forward_speed = 0) (hacc : b.forward_acceleration = 0)
    (hsmax : 0 ≤ b.forward_speed_max)
    (hfr : 0 ≤ b.occupation.front)
    (hfr2 : b.occupation.front < (P.L : Int)) (hL : 0 < P.L)
    (hgridf : onGridList P b.occupation.front_cells)
    (hfcne : b.occupation.front_cells ≠ []) :
    b.forward_update P road true = .ok b := by
  obtain ⟨⟨front, right, width, length⟩, fsm, fs, fa, rsm, li, dp, ys⟩ := b
  have hfs : fs = 0 := hspd
  have hfa : fa = 0 := hacc
  subst hfs
  subst hfa
  obtain ⟨gaps, hgaps⟩ : ∃ r, mapExcept
      (fun c => cells_front_gap P road.cells c none)
      (RectangleOccupier.front_cells ⟨front, right, width, length⟩) =
      .ok r :=
    mapExcept_of_forall (fun c hc =>
      cells_front_gap_ok_of road.cells none (hgridf c hc).1
        (hgridf c hc).2 hL)
  obtain ⟨g, hming⟩ : ∃ g, gaps.min? = some g := by
    cases hm : gaps.min? with
    | some g => exact ⟨g, rfl⟩
    | none =>
        exfalso
        have hnil : gaps = [] := List.min?_eq_none_iff.mp hm
        subst hnil
        have hlen := mapExcept_length hgaps
        exact hfcne (List.length_eq_zero.mp hlen.symm)
  unfold Bike.forward_update Road.front_gap
  rw [hgaps, except_bind_ok, except_pure, except_bind_ok, hming]
  simp only [except_pure, except_bind_ok]
  rw [if_neg (by omega : ¬ P.L = 0)]
  simp only [eq_self_iff_true, if_true]
  have hns : max (min (min ((0 : Int) + 0) fsm)
      ((g : Nat) : Int) - 1) 0 = 0 := by
    rw [zero_add]
    rw [min_eq_left hsmax]
    rw [min_eq_left (Int.natCast_nonneg g)]
    decide
  have hemod : front.emod (P.L : Int) = front :=
    Int.emod_eq_of_lt hfr hfr2
  rw [hns, add_zero, hemod]

/-- **C8.**  A road holding exactly one bike and no cars, where the
bike has `p_ignore = 1`, `p_decel = 1`, zero forward acceleration and
zero forward speed (so the random draws always fire: the oracle's
ignore and decel draws are true), is a fixed point of `Road::update`:
the tick succeeds and returns the configuration unchanged — the same
bike array, no cars, and the identical occupancy index. -/
theorem single_bike_tick_fixed_point (P : Dims) (o : Oracle) (road : Road)
    (b : Bike) (hov : o.Valid)
    (hbikes : road.bikes = [b]) (hcars : road.cars = [])
    (hpig : b.lateral_ignorance = 1) (hpdec : b.deceleration_prob = 1)
    (hig : o.bike_ignore_draw 0 = true) (hdec : o.bike_decel_draw 0 = true)
    (hacc : b.forward_acceleration = 0) (hspd : b.forward_speed = 0)
    (hsmax : 0 ≤ b.forward_speed_max)
    (hfr : 0 ≤ b.occupation.front)
    (hfr2 : b.occupation.front < (P.L : Int)) (hL : 0 < P.L)
    (hgrid : onGridList P b.occupied_cells)
    (hgridf : onGridList P b.occupation.front_cells)
    (hfcne : b.occupation.front_cells ≠ [])
    (hnd : (b.cellsV P).Nodup)
    (hcells : ∀ c, road.cells c =
      if c ∈ b.cellsV P then some (Vehicle.bike 0) else none) :
    road.update P o = .ok road := by
  obtain ⟨hshuf, hpick⟩ := hov
  obtain ⟨bikes, cars, cells⟩ := road
  have hbk : bikes = [b] := hbikes
  have hcr : cars = [] := hcars
  subst hbk
  subst hcr
  have hcl : ∀ c, cells c =
      if c ∈ b.cellsV P then some (Vehicle.bike 0) else none := hcells
  have hlat : b.lateral_update P 0 ⟨[b], [], cells⟩ (o.bike_ignore_draw 0)
      o.pick = .ok b := by
    rw [hig]
    rfl
  have hnext1 : Road.next_bikes_lateral P o ⟨[b], [], cells⟩ = .ok [b] :=
    mapExcept_singleton hlat
  have hfm : ([b] : List Bike).flatMap Bike.occupied_cells =
      b.occupied_cells := by
    simp
  have hwipe1 : Road.wipe_bikes_from_cells P ⟨[b], [], cells⟩ =
      .ok (erase_cells cells (b.cellsV P)) := by
    unfold Road.wipe_bikes_from_cells
    dsimp only
    rw [hfm, mapExcept_validate_of hgrid hL, except_bind_ok, except_pure]
    rfl
  have hcolls : collisions_for P (erase_cells cells (b.cellsV P))
      b.occupied_cells = .ok [] := by
    rw [collisions_for_of _ hgrid hL]
    congr 1
    apply List.filterMap_eq_nil.mpr
    intro c hc
    have hc' : c ∈ b.cellsV P := hc
    rw [erase_cells_apply, if_pos hc']
  have haccept : lateral_accept P (erase_cells cells (b.cellsV P), [b])
      (0, b) = .ok (insert_cells (erase_cells cells (b.cellsV P))
        (b.cellsV P) (Vehicle.bike 0), [b]) := by
    simp only [lateral_accept]
    rw [hcolls, except_bind_ok]
    rw [if_pos (@List.isEmpty_nil Vehicle)]
    rw [except_pure, except_bind_ok]
    rw [mapExcept_validate_of hgrid hL, except_bind_ok]
    rw [if_pos (by simp : (0 : Nat) < ([b] : List Bike).length)]
    rw [except_pure]
    rfl
  have hfold1 : foldExcept (lateral_accept P)
      (erase_cells cells (b.cellsV P), [b]) [(0, b)] =
      .ok (insert_cells (erase_cells cells (b.cellsV P)) (b.cellsV P)
        (Vehicle.bike 0), [b]) := by
    unfold foldExcept
    rw [haccept, except_bind_ok]
    rfl
  have hins1 : insert_cells (erase_cells cells (b.cellsV P)) (b.cellsV P)
      (Vehicle.bike 0) = cells := by
    funext c
    rw [insert_cells_apply]
    by_cases hc : c ∈ b.cellsV P
    · rw [if_pos hc, hcl c, if_pos hc]
    · rw [if_neg hc, erase_cells_apply, if_neg hc]
  have hphase1 : Road.bikes_lateral_update P o ⟨[b], [], cells⟩ =
      .ok ⟨[b], [], cells⟩ := by
    simp only [Road.bikes_lateral_update]
    rw [hnext1, except_bind_ok]
    have hsh : o.shuffle (([b] : List Bike).enum) = [(0, b)] :=
      List.perm_singleton.mp (hshuf _)
    rw [hsh, hwipe1, except_bind_ok, hfold1, except_bind_ok, except_pure]
    dsimp only
    rw [hins1]
  have hfwd : b.forward_update P ⟨[b], [], cells⟩ (o.bike_decel_draw 0) =
      .ok b := by
    rw [hdec]
    exact forward_update_fixed hspd hacc hsmax hfr hfr2 hL hgridf hfcne
  have hnext2 : Road.next_bikes_forward P o ⟨[b], [], cells⟩ = .ok [b] :=
    mapExcept_singleton hfwd
  have hplist : (([b] : List Bike).enum.flatMap (fun p =>
      p.2.occupied_cells.map (fun c => (c, p.1)))) =
      b.occupied_cells.map (fun c => (c, 0)) := by simp
  obtain ⟨cells2, hins2⟩ : ∃ cells2, insert_validated_checked P Vehicle.bike
      (erase_cells cells (b.cellsV P))
      (b.occupied_cells.map (fun c => (c, 0))) = .ok cells2 := by
    apply insert_validated_checked_of
    · intro p hp
      obtain ⟨c0, hc0, rfl⟩ := List.mem_map.mp hp
      exact hgrid c0 hc0
    · exact hL
    · have h1 : List.Pairwise (fun a c : Coord =>
          (⟨a.lat, a.long.emod (P.L : Int)⟩ : Coord) ≠
            ⟨c.lat, c.long.emod (P.L : Int)⟩) b.occupied_cells :=
        List.pairwise_map.mp hnd
      exact List.pairwise_map.mpr h1
    · intro p hp
      obtain ⟨c0, hc0, rfl⟩ := List.mem_map.mp hp
      dsimp only
      have hmem : (⟨c0.lat, c0.long.emod (P.L : Int)⟩ : Coord) ∈
          b.cellsV P := List.mem_map.mpr ⟨c0, hc0, rfl⟩
      rw [erase_cells_apply, if_pos hmem]
  obtain ⟨_, _, _, hform2⟩ := insert_validated_checked_spec hins2
  have hc2 : cells2 = cells := by
    funext x
    have hx := hform2 x
    split at hx
    next p hfind =>
      have hpmem := List.mem_of_find?_eq_some hfind
      obtain ⟨c0, hc0, rfl⟩ := List.mem_map.mp hpmem
      have hpx : (⟨c0.lat, c0.long.emod (P.L : Int)⟩ : Coord) = x := by
        have hp1 := @List.find?_some _ (fun q : Coord × Nat =>
          decide ((⟨q.1.lat, q.1.long.emod (P.L : Int)⟩ : Coord) = x))
          _ _ hfind
        exact of_decide_eq_true hp1
      have hmem : x ∈ b.cellsV P := by
        rw [← hpx]
        exact List.mem_map.mpr ⟨c0, hc0, rfl⟩
      rw [hx, hcl x, if_pos hmem]
    next hfind =>
      rw [hx, erase_cells_apply]
      by_cases hxc : x ∈ b.cellsV P
      · exfalso
        obtain ⟨c0, hc0, hceq⟩ := List.mem_map.mp hxc
        have hc0pair : (c0, 0) ∈ b.occupied_cells.map (fun c => (c, 0)) :=
          List.mem_map.mpr ⟨c0, hc0, rfl⟩
        have hfF := List.find?_eq_none.mp hfind _ hc0pair
        exact hfF (decide_eq_true hceq)
      · rw [if_neg hxc]
  have hphase2 : Road.bikes_forward_update P o ⟨[b], [], cells⟩ =
      .ok ⟨[b], [], cells⟩ := by
    simp only [Road.bikes_forward_update]
    rw [hnext2, except_bind_ok, hwipe1, except_bind_ok]
    rw [hplist, hins2, except_bind_ok, except_pure]
    rw [hc2]
  have hphase3 : Road.cars_update P o ⟨[b], [], cells⟩ =
      .ok ⟨[b], [], cells⟩ := rfl
  show Road.update P o ⟨[b], [], cells⟩ = .ok ⟨[b], [], cells⟩
  simp only [Road.update]
  rw [hphase1, except_bind_ok, hphase2, except_bind_ok]
  exact hphase3

/-- Witness for C8: the stationary single-bike road `roadC8` under the
deterministic oracle is returned unchanged by one tick. -/
theorem single_bike_tick_fixed_point_witness :
    roadC8.update dimsC1 oracleId = .ok roadC8 :=
  single_bike_tick_fixed_point dimsC1 oracleId roadC8 bikeC8 oracleId_valid
    rfl rfl (by decide) (by decide) rfl rfl (by decide) (by decide)
    (by decide) (by decide) (by decide) (by decide)
    (by unfold onGridList; decide) (by unfold onGridList; decide)
    (by decide) (by decide) (fun c => rfl)

end Lovrle
